import Mathlib

/-!
Shallow embedding of the libyang schema/reference-resolution engine
(src/context.c, src/resolve.c) and proofs about it.

C strings are modelled as `List Char` (the bytes before the terminating
NUL); reading one past the end yields the NUL character, as in C.
Machine integers are modelled as `Int`/`Nat`; where the C code stores a
signed value into an unsigned 64-bit field the value is reduced modulo
2^64 explicitly.
-/

namespace Libyang

/-- A C string: the characters before the terminating NUL. -/
abbrev Str := List Char

/-- `s[i]` with the C convention that reading the terminator yields NUL. -/
def charAt (s : Str) (i : Nat) : Char := s.getD i (Char.ofNat 0)

/-- C `isalpha` in the default locale (ASCII letters). -/
def isalphaC (c : Char) : Bool :=
  ('a' ≤ c && c ≤ 'z') || ('A' ≤ c && c ≤ 'Z')

/-- C `isdigit`. -/
def isdigitC (c : Char) : Bool := '0' ≤ c && c ≤ '9'

/-- C `isalnum`. -/
def isalnumC (c : Char) : Bool := isalphaC c || isdigitC c

/-- C `isspace` in the default locale: space, \t, \n, \v, \f, \r. -/
def isspaceC (c : Char) : Bool :=
  c = ' ' || c = Char.ofNat 9 || c = Char.ofNat 10 || c = Char.ofNat 11 ||
  c = Char.ofNat 12 || c = Char.ofNat 13

/-- The leading-"xml" test of `parse_identifier` (resolve.c:51-55),
transcribed exactly, including the `id[0] == 'M'` comparison in the
second conjunct (where the function's own doc comment asks for
`('M'|'m')` on the second character). -/
def xmlReject (id : Str) : Bool :=
  ((charAt id 0 = 'x') || (charAt id 0 = 'X'))
  && (charAt id 0 ≠ Char.ofNat 0 && ((charAt id 1 = 'm') || (charAt id 0 = 'M')))
  && (charAt id 1 ≠ Char.ofNat 0 && ((charAt id 2 = 'l') || (charAt id 2 = 'L')))

/-- Length of the longest run of `ALPHA / DIGIT / "_" / "-" / "."`
characters, the loop of `parse_identifier` (resolve.c:64-67). -/
def identTailLen : Str → Nat
  | [] => 0
  | c :: cs =>
    if isalnumC c || c = '_' || c = '-' || c = '.' then identTailLen cs + 1 else 0

/-- `parse_identifier` (resolve.c:44-70).  Returns the number of parsed
characters; both failure paths return `-parsed` with `parsed = 0`. -/
def parse_identifier (id : Str) : Int :=
  if xmlReject id then 0
  else if !isalphaC (charAt id 0) && charAt id 0 ≠ '_' then 0
  else 1 + (identTailLen (id.drop 1) : Int)

/-- The identifier grammar of the claim:
`(ALPHA|"_") (ALPHA|DIGIT|"_"|"-"|".")*` as a predicate on a prefix
length, written from the spec for comparison with the code. -/
def grammarOkFirst (c : Char) : Bool := isalphaC c || c = '_'

/-- Case-insensitive comparison of the first three characters with
"xml", written from the spec's words (all eight casings). -/
def specXmlStart (s : Str) : Bool :=
  (charAt s 0 = 'x' || charAt s 0 = 'X') &&
  (charAt s 1 = 'm' || charAt s 1 = 'M') &&
  (charAt s 2 = 'l' || charAt s 2 = 'L')

/-! ## Range/length interval resolution (resolve_len_ran_interval, resolve.c:1824-2182) -/

/-- Base types handled by `resolve_len_ran_interval`.  `LY_TYPE_DEC64`
(long-double arithmetic, `kind = 2`) is outside the shallow embedding;
all other cases of the C switch are covered. -/
inductive LyTypeBase : Type where
  | binary | int8 | int16 | int32 | int64
  | uint8 | uint16 | uint32 | uint64 | string
deriving DecidableEq, Repr

/-- The `kind` local of `resolve_len_ran_interval`: 0 unsigned, 1 signed. -/
def baseKind : LyTypeBase → Nat
  | .int8 | .int16 | .int32 | .int64 => 1
  | _ => 0

/-- `local_umin`/`local_smin` initial value per base (resolve.c:1836-1936). -/
def baseMin : LyTypeBase → Int
  | .int8 => -128
  | .int16 => -32768
  | .int32 => -2147483648
  | .int64 => -9223372036854775808
  | _ => 0

/-- `local_umax`/`local_smax` initial value per base (resolve.c:1836-1936). -/
def baseMax : LyTypeBase → Int
  | .int8 => 127
  | .int16 => 32767
  | .int32 => 2147483647
  | .int64 => 9223372036854775807
  | .uint8 => 255
  | .uint16 => 65535
  | .uint32 => 4294967295
  | _ => 18446744073709551615

/-- The fields of `struct lys_type` that `resolve_len_ran_interval`
reads: the base, the attached textual restriction
(`info.num.range->expr` / `info.str.length->expr` / …), and the
superior type `der->type`. -/
inductive lys_type : Type where
  | mk : LyTypeBase → Option Str → Option lys_type → lys_type

def lys_type.base : lys_type → LyTypeBase
  | .mk b _ _ => b

def lys_type.range : lys_type → Option Str
  | .mk _ r _ => r

def lys_type.der : lys_type → Option lys_type
  | .mk _ _ d => d

/-- One `struct len_ran_intv` (uval/sval unified as `Int`). -/
structure LenRanIntv : Type where
  kind : Nat
  imin : Int
  imax : Int
deriving DecidableEq, Repr

/-- Drop the `isspace` prefix (the `while (isspace(ptr[0])) ++ptr;` loops). -/
def skipSpace : Str → Str
  | [] => []
  | c :: cs => if isspaceC c then skipSpace cs else c :: cs

/-- Drop a leading digit run. -/
def dropDigits : Str → Str
  | [] => []
  | c :: cs => if isdigitC c then dropDigits cs else c :: cs

/-- Accumulate a leading digit run into an integer. -/
def digitsVal : Str → Int → Int
  | [], acc => acc
  | c :: cs, acc =>
    if isdigitC c then digitsVal cs (acc * 10 + ((c.toNat - '0'.toNat : Nat) : Int))
    else acc

/-- C `atoll`: optional whitespace, optional sign, digit run. -/
def atoll (s : Str) : Int :=
  match skipSpace s with
  | '-' :: cs => - digitsVal cs 0
  | '+' :: cs => digitsVal cs 0
  | cs => digitsVal cs 0

/-- The pointer advance after a numeric bound
(`if sign then ++ptr; while (isdigit) ++ptr;`, resolve.c:2016-2021). -/
def skipSignDigits (s : Str) : Str :=
  match s with
  | '+' :: cs => dropDigits cs
  | '-' :: cs => dropDigits cs
  | cs => dropDigits cs

/-- Assignment of an `atoll` result into the interval value field: the
unsigned field (`kind = 0`) is a `uint64_t`, so the `long long` value is
reduced modulo 2^64; the signed field takes it unchanged. -/
def storeVal (kind : Nat) (v : Int) : Int :=
  if kind = 0 then v.emod (2 ^ 64) else v

/-- Parse the `min` bound of one segment (resolve.c:2002-2045).  Returns
the stored value and the pointer after the bound, or `none` on the
`LOGINT; goto error` path. -/
def parseSegMin (ptr0 : Str) (kind : Nat) (lmin lmax : Int) : Option (Int × Str) :=
  let ptr := skipSpace ptr0
  if isdigitC (charAt ptr 0) || charAt ptr 0 = '+' || charAt ptr 0 = '-' then
    some (storeVal kind (atoll ptr), skipSignDigits ptr)
  else if List.isPrefixOf ['m', 'i', 'n'] ptr then
    some (lmin, ptr.drop 3)
  else if List.isPrefixOf ['m', 'a', 'x'] ptr then
    some (lmax, ptr.drop 3)
  else none

/-- Parse the rest of one segment after its `min` bound
(resolve.c:2047-2091): either end of segment (single value), or
`".." max`. -/
def parseSegMax (ptr0 : Str) (kind : Nat) (lmax : Int) (minv : Int) : Option Int :=
  let ptr := skipSpace ptr0
  if charAt ptr 0 = '|' || charAt ptr 0 = Char.ofNat 0 then
    some minv
  else if List.isPrefixOf ['.', '.'] ptr then
    let ptr2 := skipSpace (ptr.drop 2)
    if isdigitC (charAt ptr2 0) || charAt ptr2 0 = '+' || charAt ptr2 0 = '-' then
      some (storeVal kind (atoll ptr2))
    else if List.isPrefixOf ['m', 'a', 'x'] ptr2 then
      some lmax
    else none
  else none

/-- One full segment of the restriction string. -/
def parseOneSeg (segPtr : Str) (kind : Nat) (lmin lmax : Int) : Option LenRanIntv :=
  match parseSegMin segPtr kind lmin lmax with
  | none => none
  | some (mn, rest) =>
    match parseSegMax rest kind lmax mn with
    | none => none
    | some mx => some ⟨kind, mn, mx⟩

/-- `strchr(s, c)` advanced one past the found character
(`seg_ptr = strchr(seg_ptr, '|'); seg_ptr++`). -/
def strchrAfter (s : Str) (c : Char) : Option Str :=
  match s with
  | [] => none
  | x :: xs => if x = c then some xs else strchrAfter xs c

theorem strchrAfter_length {s : Str} {c : Char} {r : Str}
    (h : strchrAfter s c = some r) : r.length < s.length := by
  induction s with
  | nil => simp [strchrAfter] at h
  | cons x xs ih =>
    by_cases hx : x = c
    · simp [strchrAfter, hx] at h
      simp [← h, List.length_cons, Nat.lt_succ_self]
    · simp [strchrAfter, hx] at h
      exact Nat.lt_trans (ih h) (Nat.lt_succ_self _)

/-- The `while (1)` segment loop of `resolve_len_ran_interval`
(resolve.c:1984-2099): parse segments separated by the first `|` found
from each segment's start.  The loop advances to a strictly shorter
suffix each round (`strchrAfter_length`), so a fuel of the string
length plus one never runs out. -/
def parseSegs : Nat → Str → Nat → Int → Int → Option (List LenRanIntv)
  | 0, _, _, _, _ => none
  | fuel + 1, segPtr, kind, lmin, lmax =>
    match parseOneSeg segPtr kind lmin lmax with
    | none => none
    | some iv =>
      match strchrAfter segPtr '|' with
      | none => some [iv]
      | some rest =>
        match parseSegs fuel rest kind lmin lmax with
        | none => none
        | some ivs => some (iv :: ivs)

/-- The check of the local intervals against the superior ones
(resolve.c:2101-2156): a single forward scan of the parent list; a local
interval whose `min` falls in the current parent interval must end
inside it, otherwise the scan advances to the next parent interval;
locals left over when the parents run out fail. -/
def checkLocal : Nat → List LenRanIntv → List LenRanIntv → Bool
  | 0, _, _ => false
  | _ + 1, _, [] => true
  | _ + 1, [], _ :: _ => false
  | fuel + 1, p :: ps, l :: ls =>
    if l.imin ≥ p.imin ∧ l.imin ≤ p.imax then
      if l.imax ≤ p.imax then checkLocal fuel (p :: ps) ls else false
    else checkLocal fuel ps (l :: ls)

/-- `resolve_len_ran_interval` (resolve.c:1824-2182) on the integer and
string/binary bases.  `none` is the `-1` error return; `some l` is
`EXIT_SUCCESS` with `*ret` the interval list (empty list for a NULL
list). -/
def resolve_len_ran_interval : Option Str → lys_type → Option (List LenRanIntv)
  | str_restr, .mk base range der =>
    let kind := baseKind base
    let str2 := match str_restr with
      | some s => some s
      | none => range
    let pres := match der with
      | some d => resolve_len_ran_interval none d
      | none => some []
    match pres with
    | none => none
    | some intv =>
      match str2 with
      | none => some intv
      | some restr =>
        let lmin := match intv.head? with
          | some iv => iv.imin
          | none => baseMin base
        let lmax := match intv.getLast? with
          | some iv => iv.imax
          | none => baseMax base
        match parseSegs (restr.length + 1) restr kind lmin lmax with
        | none => none
        | some locals =>
          if intv.isEmpty then some (intv ++ locals)
          else if checkLocal (intv.length + locals.length + 1) intv locals then
            some (intv ++ locals)
          else none

/-- Spec-side predicate: the intervals appear in strictly ascending
order and are pairwise disjoint (each interval ends before the next
begins), written from the spec's words for comparison with what the
code returns. -/
def pairwiseAscending : List LenRanIntv → Bool
  | [] => true
  | [_] => true
  | a :: b :: rest => decide (a.imax < b.imin) && pairwiseAscending (b :: rest)

/-! ## Node identifiers and schema-nodeids (resolve.c:86-156, 771-825) -/

/-- Result record of `parse_node_identifier`: the return value and the
out-parameters (`name`/`mod_name` are the suffixes of the input the C
pointers point into). -/
structure NodeIdParse : Type where
  ret : Int
  mod_name : Option Str
  mod_name_len : Nat
  name : Str
  nam_len : Nat
deriving DecidableEq, Repr

/-- `parse_node_identifier` (resolve.c:86-156):
`[module-name ":"] identifier`. -/
def parse_node_identifier (id : Str) : NodeIdParse :=
  let r := parse_identifier id
  if r < 1 then ⟨r, none, 0, [], 0⟩
  else
    let rn := r.toNat
    match id.drop rn with
    | ':' :: rest2 =>
      let r2 := parse_identifier rest2
      if r2 < 1 then ⟨-(rn + 1 : Int) + r2, some id, rn, [], 0⟩
      else ⟨((rn + 1 + r2.toNat : Nat) : Int), some id, rn, rest2, r2.toNat⟩
    | _ => ⟨(rn : Int), none, 0, id, rn⟩

/-- Result record of `parse_schema_nodeid`. -/
structure SchemaNodeidParse : Type where
  ret : Int
  mod_name : Option Str
  mod_name_len : Nat
  name : Str
  nam_len : Nat
  is_relative : Int
deriving DecidableEq, Repr

/-- `parse_schema_nodeid` (resolve.c:771-825).  `is_relative` is the
tri-state threaded across consecutive calls over one path: -1 unset,
0 absolute, 1 relative (the callers of interest pass a NULL
`has_predicate`, so that out-parameter is omitted). -/
def parse_schema_nodeid (id : Str) (is_relative : Int) : SchemaNodeidParse :=
  if charAt id 0 ≠ '/' then
    if is_relative ≠ -1 then ⟨0, none, 0, [], 0, is_relative⟩
    else
      let pd := if List.isPrefixOf ['.', '/'] id then 2 else 0
      let idp := id.drop pd
      let np := parse_node_identifier idp
      if np.ret < 1 then ⟨-(pd : Int) + np.ret, none, 0, [], 0, 1⟩
      else ⟨((pd + np.ret.toNat : Nat) : Int), np.mod_name, np.mod_name_len, np.name, np.nam_len, 1⟩
  else
    let isRel := if is_relative = -1 then 0 else is_relative
    let idp := id.drop 1
    let np := parse_node_identifier idp
    if np.ret < 1 then ⟨-(1 : Int) + np.ret, none, 0, [], 0, isRel⟩
    else ⟨((1 + np.ret.toNat : Nat) : Int), np.mod_name, np.mod_name_len, np.name, np.nam_len, isRel⟩

/-! ## Schema node trees and nodeid resolvers (resolve.c:1053-1245) -/

/-- Schema nodetype constants (`LYS_NODE`, tree_schema.h — not under
src/, values modelled; only bit-distinctness matters to the code). -/
def LYS_CONTAINER : Nat := 1
def LYS_CHOICE : Nat := 2
def LYS_LEAF : Nat := 4
def LYS_LEAFLIST : Nat := 8
def LYS_LIST : Nat := 16
def LYS_ANYXML : Nat := 32
def LYS_CASE : Nat := 64
def LYS_NOTIF : Nat := 128
def LYS_RPC : Nat := 256
def LYS_INPUT : Nat := 512
def LYS_OUTPUT : Nat := 1024
def LYS_GROUPING : Nat := 2048
def LYS_USES : Nat := 4096
def LYS_AUGMENT : Nat := 8192

/-- Schema flag constants (tree_schema.h — not under src/, values
modelled; only bit-distinctness matters). -/
def LYS_CONFIG_W : Nat := 1
def LYS_CONFIG_R : Nat := 2
def LYS_CONFIG_MASK : Nat := 3
def LYS_STATUS_CURR : Nat := 4
def LYS_STATUS_DEPRC : Nat := 8
def LYS_STATUS_OBSLT : Nat := 16
def LYS_STATUS_MASK : Nat := 28
def LYS_MAND_TRUE : Nat := 32
def LYS_CONFIG_SET : Nat := 1024

/-- A schema node: the fields of `struct lys_node` that the embedded
functions read (`name`, `nodetype`, `flags`, owning module id,
children), with the sibling/parent pointers represented by the
position in the parent's child list. -/
inductive lys_node : Type where
  | mk (name : Str) (nodetype : Nat) (flags : Nat) (module : Nat) (children : List lys_node)

def lys_node.name : lys_node → Str
  | .mk n _ _ _ _ => n

def lys_node.nodetype : lys_node → Nat
  | .mk _ t _ _ _ => t

def lys_node.flags : lys_node → Nat
  | .mk _ _ f _ _ => f

def lys_node.module : lys_node → Nat
  | .mk _ _ _ m _ => m

def lys_node.children : lys_node → List lys_node
  | .mk _ _ _ _ c => c

/-- Modelled from the spec: `lys_get_import_module` (tree_schema.c, not
under src/).  Per the spec every referenced prefix resolves to an entry
in the module's imports or to the module's own prefix: a NULL module
name resolves to the current module, otherwise the name is looked up in
the module's import environment. -/
def lys_get_import_module (env : List (Str × Nat)) (selfMod : Nat) : Option Str → Option Nat
  | none => some selfMod
  | some nm =>
    match env.find? (fun p => p.1 = nm) with
    | some p => some p.2
    | none => none

/-- Modelled from the spec: `lys_getnext` (tree_schema.c, not under
src/) with `LYS_GETNEXT_WITHCHOICE | LYS_GETNEXT_WITHCASE` set, as both
resolvers pass them: choice and case nodes are yielded as themselves,
so the enumeration is the sibling list itself; without
`LYS_GETNEXT_WITHINOUT` the resolver descends through input/output
nodes instead of yielding them (the spec: yields each logical sibling
once, skipping or descending into structural nodes as directed by
flags).
Module-scope filtering is left to the sibling check's own module
comparison.  Input/output nodes occur only directly under an rpc, so
the descent through them is one level deep. -/
def getnextList (withInOut : Bool) : List lys_node → List lys_node
  | [] => []
  | .mk nm nt fl md ch :: rest =>
    if !withInOut && (nt = LYS_INPUT || nt = LYS_OUTPUT) then
      ch ++ getnextList withInOut rest
    else
      .mk nm nt fl md ch :: getnextList withInOut rest

/-- The outcome of `schema_nodeid_siblingcheck` (resolve.c:1053-1095):
the return code (0 done, 1 continue, 2 break, -1 error), the updated
`shorthand` tri-state, and the new `start` sibling context when the
code moved down the tree (code 2 with a real descent). -/
structure SiblingCheck : Type where
  code : Int
  shorthand : Int
  newStart : Option (List lys_node × Option Nat)

/-- `schema_nodeid_siblingcheck` (resolve.c:1053-1095).  `parentNT` is
the nodetype of `lys_parent(sibling)` (shared by the whole sibling
list), `idRest` the unparsed remainder of the nodeid. -/
def schema_nodeid_siblingcheck (env : List (Str × Nat)) (sibling : lys_node)
    (shorthand : Int) (idRest : Str) (module : Nat) (modName : Option Str)
    (parentNT : Option Nat) : SiblingCheck :=
  match lys_get_import_module env module modName with
  | none => ⟨-1, shorthand, none⟩
  | some pm =>
    if pm ≠ sibling.module then ⟨1, shorthand, none⟩
    else
      let sh := parentNT = some LYS_CHOICE ∧ sibling.nodetype ≠ LYS_CASE
      let shorthand' :=
        if sh ∧ shorthand ≠ -1 then (if shorthand = 0 then 1 else 0) else shorthand
      if idRest.isEmpty then
        if shorthand' = 1 then ⟨1, shorthand', none⟩ else ⟨0, shorthand', none⟩
      else
        if ¬ sh then
          if (sibling.nodetype &&& (LYS_LEAF ||| LYS_LEAFLIST ||| LYS_ANYXML)) ≠ 0 then
            ⟨-1, shorthand', none⟩
          else
            ⟨2, shorthand', some (sibling.children, some sibling.nodetype)⟩
        else
          ⟨2, shorthand', none⟩

/-- Outcome of the inner `while ((sibling = lys_getnext(...)))` scan. -/
inductive SibScan : Type where
  | found (n : lys_node) (shorthand : Int)
  | descend (n : lys_node) (shorthand : Int) (newStart : Option (List lys_node × Option Nat))
  | noMatch (shorthand : Int)
  | err

/-- The inner sibling scan shared by both resolvers: first name match
runs the sibling check; code 1 continues the scan (with the possibly
toggled shorthand), code 2 breaks out, code 0 accepts (subject to the
`ret_nodetype` mask in the descendant resolver, `acceptMask`). -/
def scanSibs (env : List (Str × Nat)) (module : Nat) (modName : Option Str)
    (segName : Str) (idRest : Str) (parentNT : Option Nat) (acceptMask : Option Nat) :
    Int → List lys_node → SibScan
  | shorthand, [] => .noMatch shorthand
  | shorthand, sib :: rest =>
    if sib.name = segName then
      let c := schema_nodeid_siblingcheck env sib shorthand idRest module modName parentNT
      if c.code = 0 then
        match acceptMask with
        | some mask =>
          if (sib.nodetype &&& mask) ≠ 0 then .found sib c.shorthand
          else scanSibs env module modName segName idRest parentNT acceptMask c.shorthand rest
        | none => .found sib c.shorthand
      else if c.code = 1 then
        scanSibs env module modName segName idRest parentNT acceptMask c.shorthand rest
      else if c.code = 2 then
        .descend sib c.shorthand c.newStart
      else .err
    else
      scanSibs env module modName segName idRest parentNT acceptMask shorthand rest

theorem parse_schema_nodeid_nil_le (isRel : Int) :
    (parse_schema_nodeid [] isRel).ret ≤ 0 := by
  by_cases h : isRel = -1
  · subst h; decide
  · simp [parse_schema_nodeid, charAt, h, parse_node_identifier, parse_identifier,
      xmlReject, isalphaC, List.isPrefixOf]

theorem parse_schema_nodeid_drop_lt {id : Str} {isRel : Int}
    (h : ¬ (parse_schema_nodeid id isRel).ret < 1) :
    (id.drop (parse_schema_nodeid id isRel).ret.toNat).length < id.length := by
  have hne : id ≠ [] := by
    intro hid
    rw [hid] at h
    exact h (by have := parse_schema_nodeid_nil_le isRel; omega)
  have hpos : 0 < id.length := List.length_pos.mpr hne
  have h1 : 1 ≤ (parse_schema_nodeid id isRel).ret.toNat := by omega
  rw [List.length_drop]
  omega

/-- The shared segment loop of `resolve_augment_schema_nodeid`
(resolve.c:1135-1165) and `resolve_descendant_schema_nodeid`
(resolve.c:1203-1240).  `consumed` is `id - nodeid`.  The result pair is
(return value, `*ret`).  Every loop round consumes at least one
character of `id` (`parse_schema_nodeid_drop_lt`), so the callers'
fuel of the nodeid length plus one never runs out. -/
def nodeidLoop (env : List (Str × Nat)) (module : Nat) (withInOut : Bool)
    (acceptMask : Option Nat) (noInnerlist : Bool) :
    Nat → Str → Nat → Int → Int → Option Str → Str → List lys_node → Option Nat →
    Int × Option lys_node
  | 0, _, _, _, _, _, _, _, _ => (-1, none)
  | fuel + 1, id, consumed, isRel, shorthand, modName, segName, sibs, parentNT =>
    match scanSibs env module modName segName id parentNT acceptMask shorthand
        (getnextList withInOut sibs) with
    | .found n _ => (0, some n)
    | .err => (-1, none)
    | .noMatch _ => (0, none)
    | .descend n shorthand' newStart =>
      if noInnerlist ∧ n.nodetype = LYS_LIST then (-2, none)
      else
        let p := parse_schema_nodeid id isRel
        if p.ret < 1 then ((consumed : Int) - p.ret + 1, none)
        else
          let (sibs', parentNT') := match newStart with
            | some s => s
            | none => (sibs, parentNT)
          nodeidLoop env module withInOut acceptMask noInnerlist fuel
            (id.drop p.ret.toNat) (consumed + p.ret.toNat) p.is_relative shorthand'
            p.mod_name (p.name.take p.nam_len) sibs' parentNT'

/-- `resolve_augment_schema_nodeid` (resolve.c:1098-1170).  `start` is
the relative sibling context (sibling list, their parent's nodetype,
their module); `module` the absolute one; `env` models the start
module's import resolution and `moduleData` the top-level node list of
each module. -/
def resolve_augment_schema_nodeid (env : List (Str × Nat))
    (moduleData : List (Nat × List lys_node))
    (nodeid : Str) (start : Option (List lys_node × Option Nat × Nat))
    (module : Option Nat) : Int × Option lys_node :=
  let p := parse_schema_nodeid nodeid (-1)
  if p.ret < 1 then ((0 : Int) - p.ret + 1, none)
  else if (p.is_relative = 1 ∧ start.isNone) ∨ (p.is_relative ≠ 1 ∧ module.isNone) then
    (-1, none)
  else
    if p.is_relative = 1 then
      match start with
      | some (sibs, parentNT, startMod) =>
        nodeidLoop env startMod true none false (nodeid.length + 1)
          (nodeid.drop p.ret.toNat) p.ret.toNat p.is_relative 0 p.mod_name
          (p.name.take p.nam_len) sibs parentNT
      | none => (-1, none)
    else
      match module with
      | some m =>
        match lys_get_import_module env m p.mod_name with
        | none => (-1, none)
        | some startMod =>
          let sibs := match moduleData.find? (fun q => q.1 = startMod) with
            | some q => q.2
            | none => []
          nodeidLoop env m true none false (nodeid.length + 1)
            (nodeid.drop p.ret.toNat) p.ret.toNat p.is_relative 0 p.mod_name
            (p.name.take p.nam_len) sibs none
      | none => (-1, none)

/-- `resolve_descendant_schema_nodeid` (resolve.c:1177-1245).  `start`
as above; returns (return value, `*ret`), where -2 is the violated
`no_innerlist` return. -/
def resolve_descendant_schema_nodeid (env : List (Str × Nat)) (nodeid : Str)
    (start : List lys_node × Option Nat × Nat) (ret_nodetype : Nat)
    (check_shorthand : Bool) (no_innerlist : Bool) : Int × Option lys_node :=
  let sh0 : Int := if check_shorthand then 0 else -1
  let p := parse_schema_nodeid nodeid (-1)
  if p.ret < 1 then ((0 : Int) - p.ret + 1, none)
  else if p.is_relative ≠ 1 then (-1, none)
  else
    match start with
    | (sibs, parentNT, startMod) =>
      nodeidLoop env startMod false (some ret_nodetype) no_innerlist (nodeid.length + 1)
        (nodeid.drop p.ret.toNat) p.ret.toNat p.is_relative sh0 p.mod_name
        (p.name.take p.nam_len) sibs parentNT

/-! ## Base-identity resolution (resolve_base_ident_sub, resolve.c:3749-3828) -/

/-- One `struct lys_ident`: name, weak `base` reference and the `der`
back-link array, both as indices into an identity pool. -/
structure lys_ident : Type where
  name : Str
  base : Option Nat
  der : List Nat
deriving DecidableEq, Repr

/-- An identity-owning module: the pool indices of its own identities
and of each included submodule's identities. -/
structure IdentModule : Type where
  idents : List Nat
  incs : List (List Nat)
deriving Repr

/-- Messages logged by the embedded identity resolver; the claim only
inspects the circular-reference one
(`"Circular reference of \"%s\" identity."`, resolve.c:3797). -/
inductive IdentLogMsg : Type where
  | circularRef (basename : Str)
deriving DecidableEq, Repr

/-- `pool[idx].name`. -/
def identNameAt (pool : List lys_ident) (idx : Nat) : Option Str :=
  match pool[idx]? with
  | some id => some id.name
  | none => none

/-- `pool[idx].base` (`NULL` when out of range). -/
def identBaseAt (pool : List lys_ident) (idx : Nat) : Option Nat :=
  match pool[idx]? with
  | some id => id.base
  | none => none

/-- The `strcmp(basename, …ident[i].name)` search loop over one
identity list. -/
def findIdentIn (pool : List lys_ident) (basename : Str) : List Nat → Option Nat
  | [] => none
  | idx :: rest =>
    if identNameAt pool idx = some basename then some idx
    else findIdentIn pool basename rest

/-- The submodule search loop (resolve.c:3775-3788). -/
def findIdentInIncs (pool : List lys_ident) (basename : Str) :
    List (List Nat) → Option Nat
  | [] => none
  | l :: rest =>
    match findIdentIn pool basename l with
    | some j => some j
    | none => findIdentInIncs pool basename rest

/-- The circular-reference walk
(`for (base_iter = base; base_iter; base_iter = base_iter->base)`,
resolve.c:3794-3800).  The C walk terminates because already-stored
base chains are acyclic; the embedding bounds it by a fuel that exceeds
any acyclic chain length. -/
def baseChainHits (pool : List lys_ident) : Nat → Option Nat → Nat → Bool
  | 0, _, _ => false
  | _ + 1, none, _ => false
  | fuel + 1, some j, tgt =>
    if j = tgt then true
    else baseChainHits pool fuel (identBaseAt pool j) tgt

/-- Update the identity at `j` (no-op out of range, as in C it cannot
be out of range). -/
def setIdent (pool : List lys_ident) (j : Nat) (f : lys_ident → lys_ident) :
    List lys_ident :=
  match pool[j]? with
  | some id => pool.set j (f id)
  | none => pool

/-- The backlink-maintenance walk (`while (base) { … base->der[i] =
ident; … base = base->base; }`, resolve.c:3805-3821): append `identIdx`
to the `der` array of every identity on the base chain. -/
def addDerChain (pool : List lys_ident) : Nat → Option Nat → Nat → List lys_ident
  | 0, _, _ => pool
  | _ + 1, none, _ => pool
  | fuel + 1, some j, identIdx =>
    let next := identBaseAt pool j
    let pool' := setIdent pool j (fun id => { id with der := id.der ++ [identIdx] })
    addDerChain pool' fuel next identIdx

/-- Result of `resolve_base_ident_sub`: the return code (0
`EXIT_SUCCESS`, 1 `EXIT_FAILURE`), the `*ret` out-parameter, the
updated identity pool and the logged messages. -/
structure ResBaseIdentSub : Type where
  rc : Int
  ret : Option Nat
  pool : List lys_ident
  log : List IdentLogMsg
deriving DecidableEq, Repr

/-- The `matchfound` tail of `resolve_base_ident_sub`
(resolve.c:3790-3825) once a base candidate `j` was found for identity
`identIdx`. -/
def identMatchFound (pool : List lys_ident) (identIdx j : Nat) (basename : Str) :
    ResBaseIdentSub :=
  if baseChainHits pool (pool.length + 1) (some j) identIdx then
    ⟨1, none, pool, [.circularRef basename]⟩
  else
    let pool1 := setIdent pool identIdx (fun id => { id with base := some j })
    let pool2 := addDerChain pool1 (pool1.length + 1) (some j) identIdx
    ⟨0, some j, pool2, []⟩

/-- `resolve_base_ident_sub` (resolve.c:3749-3828).  `ident = none` is
the "just search for type" mode that modifies nothing. -/
def resolve_base_ident_sub (pool : List lys_ident) (m : IdentModule)
    (ident : Option Nat) (basename : Str) : ResBaseIdentSub :=
  match findIdentIn pool basename m.idents with
  | some j =>
    match ident with
    | none => ⟨0, some j, pool, []⟩
    | some identIdx => identMatchFound pool identIdx j basename
  | none =>
    match findIdentInIncs pool basename m.incs with
    | some j =>
      match ident with
      | none => ⟨0, some j, pool, []⟩
      | some identIdx => identMatchFound pool identIdx j basename
    | none => ⟨0, none, pool, []⟩

/-! ## Augment application (inherit_config_flag and resolve_augment,
resolve.c:3391-3496) -/

/-- `inherit_config_flag` (resolve.c:3391-3398): for every node of the
list and, recursively, its descendants, OR the (already updated)
parent's config bits into the node's flags.  There is no
`LYS_CONFIG_SET` exception in this code.  The C caller invokes it once
per top-level child, each call covering that child and its following
siblings; the repetitions are idempotent because the update is a
bitwise OR, so a single pass over the list is the same function. -/
def inherit_config_flag (parentFlags : Nat) : List lys_node → List lys_node
  | [] => []
  | .mk nm nt fl md ch :: rest =>
    let fl' := fl ||| (parentFlags &&& LYS_CONFIG_MASK)
    .mk nm nt fl' md (inherit_config_flag fl' ch) :: inherit_config_flag parentFlags rest

/-- Modelled from the spec: `lyp_check_mandatory` (parser.c, not under
src/) reports whether the augment's subtree contains a node with the
mandatory flag (the spec: mandatory additions to a target in another
module are forbidden). -/
def lyp_check_mandatory : List lys_node → Bool
  | [] => false
  | .mk _ _ fl _ ch :: rest =>
    ((fl &&& LYS_MAND_TRUE) != 0) || lyp_check_mandatory ch || lyp_check_mandatory rest

/-- Modelled from the spec: `lys_check_id` (tree_schema.c, not under
src/) — "Duplicates by name trigger `DuplicateId`": adding `sub` under
the target fails iff an existing child has the same name. -/
def lys_check_id (sub : lys_node) (targetChildren : List lys_node) : Bool :=
  targetChildren.any (fun t => t.name = sub.name)

/-- Error outcomes of `resolve_augment` after its target resolved. -/
inductive AugErr : Type where
  | mandatoryInOther
  | badTargetType
  | badChildType
  | duplicateId
deriving DecidableEq, Repr

/-- The connect tail of `resolve_augment` (resolve.c:3471-3495): config
flags to the augment, config inheritance into the subtrees, duplicate
check, splice after the target's existing children.  Returns the
augment's new flags and the updated target. -/
def augmentConnect (aug : lys_node) (target : lys_node) : Except AugErr (Nat × lys_node) :=
  let augFlags := aug.flags ||| (target.flags &&& LYS_CONFIG_MASK)
  let kids := inherit_config_flag target.flags aug.children
  if kids.any (fun sub => lys_check_id sub target.children) then .error .duplicateId
  else
    .ok (augFlags, .mk target.name target.nodetype target.flags target.module
      (target.children ++ kids))

/-- `resolve_augment` (resolve.c:3409-3496) from the point where the
target node has resolved (line 3430); the augment is passed as a
`lys_node` whose `children` are the augmenting nodes.  `parentIsUses`
is `aug->parent != NULL` (augment owned by a uses), `targetModule` is
`lys_node_module(aug->target)`. -/
def resolve_augment (aug : lys_node) (parentIsUses : Bool) (target : lys_node)
    (targetModule : Nat) : Except AugErr (Nat × lys_node) :=
  if aug.children.isEmpty then .ok (aug.flags, target)
  else if (!parentIsUses) && (aug.module != targetModule) && lyp_check_mandatory aug.children then
    .error .mandatoryInOther
  else if (target.nodetype &&&
      (LYS_CONTAINER ||| LYS_LIST ||| LYS_CASE ||| LYS_INPUT ||| LYS_OUTPUT ||| LYS_NOTIF)) ≠ 0 then
    if aug.children.all (fun sub => (sub.nodetype &&&
        (LYS_ANYXML ||| LYS_CONTAINER ||| LYS_LEAF ||| LYS_LIST ||| LYS_LEAFLIST |||
         LYS_USES ||| LYS_CHOICE)) ≠ 0) then
      augmentConnect aug target
    else .error .badChildType
  else if target.nodetype = LYS_CHOICE then
    if aug.children.all (fun sub => (sub.nodetype &&&
        (LYS_CASE ||| LYS_ANYXML ||| LYS_CONTAINER ||| LYS_LEAF ||| LYS_LIST |||
         LYS_LEAFLIST)) ≠ 0) then
      augmentConnect aug target
    else .error .badChildType
  else .error .badTargetType

/-- Written from the spec's (amended) words: every node carries its
parent's config bits, recursively, with the parent flags updated on the
way down. -/
inductive InheritedOk : Nat → lys_node → Prop where
  | intro (pf nm nt fl md ch) :
      (∀ i, (pf &&& LYS_CONFIG_MASK).testBit i = true → fl.testBit i = true) →
      (∀ c, c ∈ ch → InheritedOk fl c) →
      InheritedOk pf (.mk nm nt fl md ch)

/-! ## List key resolution (check_key and resolve_list_keys,
resolve.c:2373-2436, 4082-4124) -/

/-- `LY_TYPE_EMPTY` (tree_schema.h, not under src/; value modelled). -/
def LY_TYPE_EMPTY : Nat := 5

/-- The fields of a candidate key leaf that `check_key` reads.
`parentNodetype` is `key->parent->nodetype`. -/
structure KeyChild : Type where
  name : Str
  nodetype : Nat
  typeBase : Nat
  flags : Nat
  parentNodetype : Nat
  hasWhen : Bool
deriving DecidableEq, Repr

/-- The `struct lys_node_list` fields read by `resolve_list_keys`. -/
structure ListNode : Type where
  flags : Nat
  keys_size : Nat
  children : List KeyChild
deriving DecidableEq, Repr

/-- Modelled from the spec: `lys_get_sibling` (tree_schema.c, not under
src/) — per the spec a linear scan filtered by effective module, name
and nodetype mask; all candidates here live in the list's own module, so
the scan filters by name and mask.  Returns the child's position (the
pointer identity) and the child. -/
def lys_get_sibling (children : List KeyChild) (nam : Str) (mask : Nat) :
    Option (Nat × KeyChild) :=
  go 0 children
where
  go : Nat → List KeyChild → Option (Nat × KeyChild)
    | _, [] => none
    | i, c :: rest =>
      if c.name = nam ∧ (c.nodetype &&& mask) ≠ 0 then some (i, c)
      else go (i + 1) rest

/-- The per-key failures of `check_key` (resolve.c:2373-2436), in
check order. -/
inductive KeyErr : Type where
  | keyDup
  | keyNotLeaf
  | keyTypeEmpty
  | keyConfig
  | keyFromAugment
  | keyWhen
  | statusErr
deriving DecidableEq, Repr

/-- `check_key` (resolve.c:2373-2436) for a key that resolved (the
`!key` existence branch cannot trigger after a successful
`lys_get_sibling`): uniqueness against the previously resolved keys
(pointer identity = position), leaf nodetype, not the built-in empty
type, config equal to the list, not inserted from an augment, no when
condition. -/
def check_key (listFlags : Nat) (prev : List (Nat × KeyChild)) (key : Nat × KeyChild) :
    Option KeyErr :=
  if prev.any (fun k => k.1 = key.1) then some .keyDup
  else if key.2.nodetype ≠ LYS_LEAF then some .keyNotLeaf
  else if key.2.typeBase = LY_TYPE_EMPTY then some .keyTypeEmpty
  else if (listFlags &&& LYS_CONFIG_MASK) ≠ (key.2.flags &&& LYS_CONFIG_MASK) then some .keyConfig
  else if key.2.parentNodetype = LYS_AUGMENT then some .keyFromAugment
  else if key.2.hasWhen then some .keyWhen
  else none

/-- Modelled from the spec: `lyp_check_status` (parser.c, not under
src/) — the status partial order "current ≥ deprecated ≥ obsolete": a
definition may not reference a less stable one (libyang enforces it
within one module; list and key share a module here). -/
def lyp_check_status (flags1 flags2 : Nat) : Bool :=
  let f1 := if (flags1 &&& LYS_STATUS_MASK) = 0 then LYS_STATUS_CURR else flags1 &&& LYS_STATUS_MASK
  let f2 := if (flags2 &&& LYS_STATUS_MASK) = 0 then LYS_STATUS_CURR else flags2 &&& LYS_STATUS_MASK
  f1 < f2

/-- Result of `resolve_list_keys`: success with the resolved key array,
`EXIT_FAILURE` (forward reference, a key name that does not resolve),
or `-1` with the specific key error. -/
inductive ListKeysResult : Type where
  | success (keys : List (Nat × KeyChild))
  | fwdRef
  | err (e : KeyErr)
deriving DecidableEq, Repr

/-- Position of the first of space, tab, LF (`strpbrk(keys_str, " \t\n")`). -/
def strpbrkPos : Str → Option Nat
  | [] => none
  | c :: rest =>
    if c = ' ' ∨ c = Char.ofNat 9 ∨ c = Char.ofNat 10 then some 0
    else
      match strpbrkPos rest with
      | some p => some (p + 1)
      | none => none

/-- The loop body iteration count of `resolve_list_keys`
(resolve.c:4087-4121): resolve one whitespace-separated key name after
another.  If the separator search fails the next iteration starts from
the empty string (in C the pointer would be NULL; a NULL start cannot
resolve and the iteration count always matches the key count in inputs
produced by the parser). -/
def rlkLoop (lst : ListNode) : Nat → Str → List (Nat × KeyChild) → ListKeysResult
  | 0, _, acc => .success acc
  | i + 1, s, acc =>
    let brk := strpbrkPos s
    let len := match brk with
      | some p => p
      | none => s.length
    let value : Str := match brk with
      | some p => skipSpace (s.drop p)
      | none => []
    match lys_get_sibling lst.children (s.take len) LYS_LEAF with
    | none => .fwdRef
    | some kc =>
      match check_key lst.flags acc kc with
      | some e => .err e
      | none =>
        if lyp_check_status lst.flags kc.2.flags then .err .statusErr
        else rlkLoop lst i (skipSpace value) (acc ++ [kc])

/-- `resolve_list_keys` (resolve.c:4082-4124). -/
def resolve_list_keys (lst : ListNode) (keys_str : Str) : ListKeysResult :=
  rlkLoop lst lst.keys_size keys_str []

/-! ## The unresolved-schema worklist driver (resolve_unres_schema,
resolve.c:4628-4701).

The per-item resolution (`resolve_unres_schema_item`) dispatches to the
individual resolvers; the driver is embedded generically over an
abstract item-attempt function `attempt : σ → Nat → σ × Int` returning
the C return code (0 success, -1 error, anything else forward
reference), which also models the claim's hypothesis that each
single-item attempt terminates.  Worklist growth during resolution is
not modelled (the registered item set is fixed). -/

/-- The `enum UNRES_ITEM` values as the driver distinguishes them:
`UNRES_USES`, `UNRES_TYPE_DER`, everything else still pending, and
`UNRES_RESOLVED`. -/
inductive UnresTypeS : Type where
  | usesK | typeDerK | otherK | resolvedK
deriving DecidableEq, Repr

/-- The filter of the pre-phase (resolve.c:4646). -/
def isPreKind : UnresTypeS → Bool
  | .usesK => true
  | .typeDerK => true
  | _ => false

/-- Outcome of one pass over the worklist: early `-1` return from an
item, or completion with the updated worklist, state, per-pass
`unres_count`/`res_count`, and the running `resolved` total. -/
inductive PassOut (σ : Type) : Type where
  | err (types : List UnresTypeS) (s : σ) (tot : Nat)
  | done (types : List UnresTypeS) (s : σ) (uc rc tot : Nat)

/-- One pass of the Uses/TypeDer pre-phase (resolve.c:4643-4660).
`doneRev` holds the already visited entries in reverse, so the index of
the entry under scrutiny is `doneRev.length`. -/
def prePassGo {σ : Type} (attempt : σ → Nat → σ × Int) :
    List UnresTypeS → List UnresTypeS → σ → Nat → Nat → Nat → PassOut σ
  | doneRev, [], s, uc, rc, tot => .done doneRev.reverse s uc rc tot
  | doneRev, t :: rest, s, uc, rc, tot =>
    if isPreKind t then
      let (s', r) := attempt s doneRev.length
      if r = 0 then
        prePassGo attempt (.resolvedK :: doneRev) rest s' (uc + 1) (rc + 1) (tot + 1)
      else if r = -1 then .err (doneRev.reverse ++ t :: rest) s' tot
      else prePassGo attempt (t :: doneRev) rest s' (uc + 1) rc tot
    else prePassGo attempt (t :: doneRev) rest s uc rc tot

/-- One pass of the general phase (resolve.c:4668-4681): attempt every
entry that is not yet `UNRES_RESOLVED`. -/
def genPassGo {σ : Type} (attempt : σ → Nat → σ × Int) :
    List UnresTypeS → List UnresTypeS → σ → Nat → PassOut σ
  | doneRev, [], s, tot => .done doneRev.reverse s 0 0 tot
  | doneRev, t :: rest, s, tot =>
    if t = .resolvedK then genPassGo attempt (t :: doneRev) rest s tot
    else
      let (s', r) := attempt s doneRev.length
      if r = 0 then genPassGo attempt (.resolvedK :: doneRev) rest s' (tot + 1)
      else if r = -1 then .err (doneRev.reverse ++ t :: rest) s' tot
      else genPassGo attempt (t :: doneRev) rest s' tot

/-- The final diagnostics pass (resolve.c:4689-4694): re-attempt every
unresolved entry with logging visible, ignoring the results. -/
def finalPassGo {σ : Type} (attempt : σ → Nat → σ × Int) :
    List UnresTypeS → List UnresTypeS → σ → σ
  | _, [], s => s
  | doneRev, t :: rest, s =>
    if t = .resolvedK then finalPassGo attempt (t :: doneRev) rest s
    else finalPassGo attempt (t :: doneRev) rest (attempt s doneRev.length).1

/-- Outcome of the `do … while` pre-phase loop. -/
inductive PreLoopOut (σ : Type) : Type where
  | fuelOut (types : List UnresTypeS) (s : σ) (tot : Nat)
  | errStop (types : List UnresTypeS) (s : σ) (tot : Nat)
  | finished (types : List UnresTypeS) (s : σ) (uc rc tot : Nat)

/-- The `do { … } while (res_count && (res_count < unres_count))` loop
(resolve.c:4639-4661).  The fuel exceeds the number of pre-phase items,
which strictly decreases whenever the loop repeats, so the `fuelOut`
marker is unreachable (proved below). -/
def preLoop {σ : Type} (attempt : σ → Nat → σ × Int) :
    Nat → List UnresTypeS → σ → Nat → PreLoopOut σ
  | 0, types, s, tot => .fuelOut types s tot
  | fuel + 1, types, s, tot =>
    match prePassGo attempt [] types s 0 0 tot with
    | .err t s' tot' => .errStop t s' tot'
    | .done t s' uc rc tot' =>
      if rc ≠ 0 ∧ rc < uc then preLoop attempt fuel t s' tot'
      else .finished t s' uc rc tot'

/-- What `resolve_unres_schema` did: the return code, the final
worklist and abstract state, whether the final
print-all-the-validation-errors pass ran, and whether diagnostics were
still hidden (`ly_vlog_hide(1)` not undone) when the function
returned. -/
structure UnresOutcome (σ : Type) : Type where
  rc : Int
  types : List UnresTypeS
  state : σ
  ranFinalDiagPass : Bool
  vlogHiddenAtExit : Bool

/-- `resolve_unres_schema` (resolve.c:4628-4701) over an abstract item
attempt. -/
def resolve_unres_schema {σ : Type} (attempt : σ → Nat → σ × Int)
    (types0 : List UnresTypeS) (s0 : σ) : UnresOutcome σ :=
  match preLoop attempt (types0.countP (fun t => isPreKind t) + 1) types0 s0 0 with
  | .fuelOut t s _ => ⟨-99, t, s, false, true⟩
  | .errStop t s _ => ⟨-1, t, s, false, false⟩
  | .finished t s uc rc tot =>
    if rc < uc then
      ⟨-1, t, s, false, true⟩
    else
      match genPassGo attempt [] t s tot with
      | .err t' s' _ => ⟨-1, t', s', false, false⟩
      | .done t' s' _ _ tot' =>
        if tot' < t'.length then
          ⟨-1, t', finalPassGo attempt [] t' s', true, false⟩
        else ⟨0, t', s', false, false⟩

/-- Number of `UNRES_RESOLVED` entries of a worklist. -/
def cntRes (l : List UnresTypeS) : Nat :=
  l.countP (fun x => decide (x = UnresTypeS.resolvedK))

/-- Number of pre-phase (`UNRES_USES`/`UNRES_TYPE_DER`) entries of a
worklist. -/
def cntPre (l : List UnresTypeS) : Nat :=
  l.countP (fun x => isPreKind x)

/-! ## The unresolved-data worklist driver (resolve_unres_data,
resolve.c:5036-5223).

The XPath evaluation inside `resolve_when` (xpath.c, not under src/) is
abstracted into a per-node oracle; leafref/instid/must items do not
change the tree shape and are abstracted into a per-node return-code
oracle (`UNRES_EMPTYCONT` items are outside this embedding). -/

/-- `when_status` bits (tree_data.h, not under src/; modelled from the
spec's tri-state `when_status ∈ Unevaluated/True/False` plus the
pending bit set by `unres_data_add`). -/
def LYD_WHEN_TRUE : Nat := 1
def LYD_WHEN_FALSE : Nat := 2
def LYD_WHEN : Nat := 4

/-- Modelled from the spec: the `LYD_WHEN_DONE` macro — a node's when
is done when it never was pending or a true/false result is recorded. -/
def LYD_WHEN_DONE (status : Nat) : Bool :=
  (status &&& LYD_WHEN) = 0 || (status &&& (LYD_WHEN_TRUE ||| LYD_WHEN_FALSE)) ≠ 0

/-- The fields of `struct lyd_node` the driver reads: the schema
nodetype and presence flag, the `when_status`, and the tree links
(parent, ordered children) as pool indices. -/
structure lyd_node_m : Type where
  nodetype : Nat
  presence : Bool
  whenStatus : Nat
  parent : Option Nat
  children : List Nat
deriving DecidableEq, Repr

/-- A data tree: a node pool, the list of top-level siblings (`*root`
and its siblings), and the ids already given to `lyd_free`. -/
structure DataState : Type where
  pool : List lyd_node_m
  roots : List Nat
  freed : List Nat
deriving DecidableEq, Repr

def dnodeAt (st : DataState) (i : Nat) : Option lyd_node_m := st.pool[i]?

def dnodeParent (st : DataState) (i : Nat) : Option Nat :=
  match dnodeAt st i with
  | some n => n.parent
  | none => none

def dnodeStatus (st : DataState) (i : Nat) : Nat :=
  match dnodeAt st i with
  | some n => n.whenStatus
  | none => 0

/-- Replace the node record at `i`. -/
def setDnode (st : DataState) (i : Nat) (f : lyd_node_m → lyd_node_m) : DataState :=
  match st.pool[i]? with
  | some n => { st with pool := st.pool.set i (f n) }
  | none => st

/-- Result of the abstracted `resolve_when` XPath evaluation. -/
inductive WhenRes : Type where
  | wtrue | wfalse | retry | werr
deriving DecidableEq, Repr

/-- `resolve_when` (resolve.c:4298-4410) with the XPath evaluation
abstracted by the oracle: a false condition ORs `LYD_WHEN_FALSE` into
the node's `when_status` and returns 0, a true one ORs
`LYD_WHEN_TRUE`; a pending dependency returns 1, an evaluation error
-1. -/
def applyWhen (st : DataState) (i : Nat) (o : WhenRes) : DataState × Int :=
  match o with
  | .wtrue => (setDnode st i (fun n => { n with whenStatus := n.whenStatus ||| LYD_WHEN_TRUE }), 0)
  | .wfalse => (setDnode st i (fun n => { n with whenStatus := n.whenStatus ||| LYD_WHEN_FALSE }), 0)
  | .retry => (st, 1)
  | .werr => (st, -1)

/-- Outcome of the parent walk at resolve.c:5069-5084. -/
inductive ParentWalkOut : Type where
  | proceed | skip | inheritFalse
deriving DecidableEq, Repr

/-- The walk over the ancestors of a when-item's node: resolve only
when every ancestor's when is done; a done, already unlinked,
when-false ancestor chain root marks the item resolved by
inheritance. -/
def whenParentWalk (st : DataState) : Nat → Option Nat → ParentWalkOut
  | 0, _ => .skip
  | _ + 1, none => .proceed
  | fuel + 1, some p =>
    match dnodeAt st p with
    | none => .proceed
    | some pn =>
      if LYD_WHEN_DONE pn.whenStatus then
        if pn.parent = none ∧ (pn.whenStatus &&& LYD_WHEN_FALSE) ≠ 0 then .inheritFalse
        else whenParentWalk st fuel pn.parent
      else .skip

/-- The walk extending the node to delete to the outermost ancestor
chain of non-presence containers that would become empty
(resolve.c:5104-5117). -/
def emptyContWalk (st : DataState) : Nat → Nat → Nat
  | 0, cur => cur
  | fuel + 1, cur =>
    match dnodeParent st cur with
    | none => cur
    | some p =>
      match dnodeAt st p with
      | none => cur
      | some pn =>
        if pn.nodetype ≠ LYS_CONTAINER then cur
        else if pn.presence then cur
        else if pn.children ≠ [cur] then cur
        else emptyContWalk st fuel p

/-- `lyd_unlink` (tree_data.c, not under src/; modelled from the spec's
ownership rules): remove the node from its parent's child list (or from
the top-level sibling list) and clear its parent link. -/
def lyd_unlink_m (st : DataState) (x : Nat) : DataState :=
  match dnodeAt st x with
  | none => st
  | some xn =>
    match xn.parent with
    | some p =>
      let st' := setDnode st p (fun n => { n with children := n.children.erase x })
      setDnode st' x (fun n => { n with parent := none })
    | none => { st with roots := st.roots.erase x }

/-- The upward test `for (parent = node[j]; parent; parent = parent->parent)
if (parent == node[i])` (resolve.c:5138-5145). -/
def isInSubtree (st : DataState) : Nat → Nat → Nat → Bool
  | 0, _, _ => false
  | fuel + 1, x, tgt =>
    if x = tgt then true
    else
      match dnodeParent st x with
      | some p => isInSubtree st fuel p tgt
      | none => false

/-- All node ids of a subtree (what `lyd_free` releases). -/
def subtreeIds (st : DataState) : Nat → Nat → List Nat
  | 0, x => [x]
  | fuel + 1, x =>
    match dnodeAt st x with
    | none => [x]
    | some n => x :: (n.children.map (fun c => subtreeIds st fuel c)).join

/-- The data worklist item kinds the driver distinguishes:
`UNRES_WHEN`, the value-only kinds (leafref/instid/must),
`UNRES_RESOLVED` and `UNRES_DELETE`. -/
inductive UnresTypeD : Type where
  | whenK | otherK | resolvedK | deleteK
deriving DecidableEq, Repr

/-- The j-loop marking every pending item whose node lies in the
deleted subtree as resolved (resolve.c:5131-5146); returns the updated
kinds and how many items were marked (each mark is a `resolved++`). -/
def markSubtree (st : DataState) (tgt : Nat) :
    List UnresTypeD → List Nat → List UnresTypeD × Nat
  | [], _ => ([], 0)
  | t :: ts, [] => (t :: ts, 0)
  | t :: ts, n :: ns =>
    let (ts', k) := markSubtree st tgt ts ns
    if t ≠ .resolvedK ∧ t ≠ .deleteK ∧ isInSubtree st (st.pool.length + 1) n tgt then
      (.resolvedK :: ts', k + 1)
    else (t :: ts', k)

/-- Outcome of the whole data driver: return code plus the final tree
and worklist. -/
structure DataOutcome : Type where
  rc : Int
  st : DataState
  types : List UnresTypeD
  nodes : List Nat
deriving DecidableEq, Repr

/-- Intermediate outcome of one when-phase pass. -/
inductive WhenPassOut : Type where
  | errOut (st : DataState) (types : List UnresTypeD) (nodes : List Nat)
  | passDone (st : DataState) (types : List UnresTypeD) (nodes : List Nat)
      (resolved whenStmt del : Nat) (progress : Bool)

theorem markSubtree_length (st : DataState) (tgt : Nat) :
    ∀ (ts : List UnresTypeD) (ns : List Nat), (markSubtree st tgt ts ns).1.length = ts.length := by
  intro ts
  induction ts with
  | nil => intro ns; simp [markSubtree]
  | cons t rest ih =>
    intro ns
    cases ns with
    | nil => simp [markSubtree]
    | cons n ns' =>
      simp only [markSubtree]
      split <;> simp [ih ns']

/-- One pass of the when phase (the `for` body, resolve.c:5059-5158).
`root` says whether the caller passed a root (auto-delete enabled),
`keepEmpty` is `LYD_OPT_KEEPEMPTYCONT`.  The loop runs while
`i < types.length`; the worklist length never changes
(`markSubtree_length`), so the caller's fuel of the worklist length is
exact. -/
def whenPassGo (oracle : Nat → WhenRes) (root keepEmpty : Bool) :
    Nat → Nat → DataState → List UnresTypeD → List Nat → Nat → Nat → Nat → Bool → Bool →
    WhenPassOut
  | 0, _, st, types, nodes, resolved, whenStmt, del, progress, _ =>
    .passDone st types nodes resolved whenStmt del progress
  | fuel + 1, i, st, types, nodes, resolved, whenStmt, del, progress, first =>
    if hlt : i < types.length then
      let t := types.get ⟨i, hlt⟩
      if t ≠ .whenK then
        whenPassGo oracle root keepEmpty fuel (i + 1) st types nodes resolved whenStmt del progress first
      else
        let whenStmt' := if first then whenStmt + 1 else whenStmt
        let nd := nodes.getD i 0
        match whenParentWalk st (st.pool.length + 1) (dnodeParent st nd) with
        | .skip =>
          whenPassGo oracle root keepEmpty fuel (i + 1) st types nodes resolved whenStmt' del progress first
        | .inheritFalse =>
          let st' := setDnode st nd (fun n => { n with whenStatus := n.whenStatus ||| LYD_WHEN_FALSE })
          whenPassGo oracle root keepEmpty fuel (i + 1) st' (types.set i .resolvedK) nodes
            (resolved + 1) whenStmt' del progress first
        | .proceed =>
          let (st', rc) := applyWhen st nd (oracle nd)
          if rc = 0 then
            if (dnodeStatus st' nd &&& LYD_WHEN_FALSE) ≠ 0 then
              if !root then .errOut st' types nodes
              else
                let ndF := if !keepEmpty then emptyContWalk st' (st'.pool.length + 1) nd else nd
                let nodes' := nodes.set i ndF
                let st'' := lyd_unlink_m st' ndF
                let types' := types.set i .deleteK
                let mk := markSubtree st'' ndF types' nodes'
                whenPassGo oracle root keepEmpty fuel (i + 1) st'' mk.1 nodes'
                  (resolved + mk.2 + 1) whenStmt' (del + 1) true first
            else
              whenPassGo oracle root keepEmpty fuel (i + 1) st' (types.set i .resolvedK) nodes
                (resolved + 1) whenStmt' del true first
          else if rc = -1 then .errOut st' types nodes
          else
            whenPassGo oracle root keepEmpty fuel (i + 1) st' types nodes resolved whenStmt' del progress first
    else .passDone st types nodes resolved whenStmt del progress

/-- Outcome of the `do … while (progress && resolved < when_stmt)`
loop (resolve.c:5057-5160). -/
inductive WhenLoopOut : Type where
  | fuelOut (st : DataState) (types : List UnresTypeD) (nodes : List Nat)
  | errOut (st : DataState) (types : List UnresTypeD) (nodes : List Nat)
  | loopDone (st : DataState) (types : List UnresTypeD) (nodes : List Nat)
      (resolved whenStmt del : Nat)

/-- The when-phase loop.  Each repetition strictly increases `resolved`
(repeating needs `progress`), so the fuel `2 * count + 2` makes the
`fuelOut` marker unreachable. -/
def whenLoop (oracle : Nat → WhenRes) (root keepEmpty : Bool) :
    Nat → DataState → List UnresTypeD → List Nat → Nat → Nat → Nat → Bool → WhenLoopOut
  | 0, st, types, nodes, _, _, _, _ => .fuelOut st types nodes
  | fuel + 1, st, types, nodes, resolved, whenStmt, del, first =>
    match whenPassGo oracle root keepEmpty types.length 0 st types nodes resolved whenStmt del false first with
    | .errOut st' t' n' => .errOut st' t' n'
    | .passDone st' t' n' resolved' whenStmt' del' progress =>
      if progress ∧ resolved' < whenStmt' then
        whenLoop oracle root keepEmpty fuel st' t' n' resolved' whenStmt' del' false
      else .loopDone st' t' n' resolved' whenStmt' del'

/-- The deletion loop (resolve.c:5173-5188): release every subtree
unlinked during the when phase (`lyd_free`) and mark its item resolved.
The C loop's `del_items &&` guard only short-circuits iterations that
would not match, since `del_items` counts exactly the `UNRES_DELETE`
entries. -/
def deleteLoop (st : DataState) : List UnresTypeD → List Nat → DataState × List UnresTypeD
  | [], _ => (st, [])
  | t :: ts, [] => (st, t :: ts)
  | t :: ts, n :: ns =>
    if t = .deleteK then
      let st' := { st with freed := st.freed ++ subtreeIds st (st.pool.length + 1) n }
      let r := deleteLoop st' ts ns
      (r.1, .resolvedK :: r.2)
    else
      let r := deleteLoop st ts ns
      (r.1, t :: r.2)

/-- Outcome of the residual item pass. -/
inductive RestOut : Type where
  | err (st : DataState) (types : List UnresTypeD)
  | done (st : DataState) (types : List UnresTypeD) (resolved : Nat)

/-- The residual pass over the remaining (leafref/instid/must, and any
still pending when) items (resolve.c:5190-5204); `rcOther` abstracts
the return code of the value-only item kinds. -/
def restLoop (oracle : Nat → WhenRes) (rcOther : Nat → Int) :
    List UnresTypeD → List UnresTypeD → List Nat → Nat → DataState → Nat → RestOut
  | doneRev, [], _, _, st, resolved => .done st doneRev.reverse resolved
  | doneRev, t :: rest, nodes, i, st, resolved =>
    if t = .resolvedK then
      restLoop oracle rcOther (t :: doneRev) rest nodes (i + 1) st resolved
    else
      let nd := nodes.getD i 0
      match t with
      | .whenK =>
        let (st', rc) := applyWhen st nd (oracle nd)
        if rc = 0 then
          restLoop oracle rcOther (.resolvedK :: doneRev) rest nodes (i + 1) st' (resolved + 1)
        else if rc = -1 then .err st' (doneRev.reverse ++ t :: rest)
        else restLoop oracle rcOther (t :: doneRev) rest nodes (i + 1) st' resolved
      | .deleteK => .err st (doneRev.reverse ++ t :: rest)
      | _ =>
        let rc := rcOther nd
        if rc = 0 then
          restLoop oracle rcOther (.resolvedK :: doneRev) rest nodes (i + 1) st (resolved + 1)
        else if rc = -1 then .err st (doneRev.reverse ++ t :: rest)
        else restLoop oracle rcOther (t :: doneRev) rest nodes (i + 1) st resolved

/-- The final print-the-errors pass over unresolved data items
(resolve.c:5211-5216), results ignored. -/
def finalDataPass (oracle : Nat → WhenRes) :
    List UnresTypeD → List Nat → Nat → DataState → DataState
  | [], _, _, st => st
  | t :: rest, nodes, i, st =>
    if t = .resolvedK then finalDataPass oracle rest nodes (i + 1) st
    else
      match t with
      | .whenK => finalDataPass oracle rest nodes (i + 1) (applyWhen st (nodes.getD i 0) (oracle (nodes.getD i 0))).1
      | _ => finalDataPass oracle rest nodes (i + 1) st

/-- `resolve_unres_data` (resolve.c:5036-5223).  `root` says the caller
passed a root (auto-delete), otherwise a false when condition is an
error; `keepEmpty` is `LYD_OPT_KEEPEMPTYCONT`. -/
def resolve_unres_data (oracle : Nat → WhenRes) (rcOther : Nat → Int)
    (root keepEmpty : Bool) (st0 : DataState) (types0 : List UnresTypeD)
    (nodes0 : List Nat) : DataOutcome :=
  if types0.length = 0 then ⟨0, st0, types0, nodes0⟩
  else
    match whenLoop oracle root keepEmpty (2 * types0.length + 2) st0 types0 nodes0 0 0 0 true with
    | .fuelOut st t n => ⟨-99, st, t, n⟩
    | .errOut st t n => ⟨-1, st, t, n⟩
    | .loopDone st t n resolved whenStmt _del =>
      if resolved < whenStmt then ⟨-1, st, t, n⟩
      else
        let d := deleteLoop st t n
        match restLoop oracle rcOther [] d.2 n 0 d.1 resolved with
        | .err st2 t2 => ⟨-1, st2, t2, n⟩
        | .done st2 t2 resolved2 =>
          if resolved2 < t2.length then
            ⟨-1, finalDataPass oracle t2 n 0 st2, t2, n⟩
          else ⟨0, st2, t2, n⟩

/-! ## Context operations (context.c) -/

/-- The fields of `struct lys_module` read by the embedded context
operations.  `revs` lists the revision dates newest first
(`rev[0].date`); `imps` are the imports as (external-flag, imported
module name, imported module newest revision or ""). -/
structure lys_module_m : Type where
  name : String
  ns : String
  revs : List String
  implemented : Bool
  filepath : Option String
  features : List (String × Bool)
  imps : List (Nat × String × String)
  incs : List (String × List String × Option String × List (String × Bool))
deriving DecidableEq, Repr

/-- `strcmp(a, b) < 0` on NUL-free C strings, transcribed directly
(byte-wise lexicographic comparison). -/
def strcmpLtB : List Char → List Char → Bool
  | [], [] => false
  | [], _ :: _ => true
  | _ :: _, [] => false
  | x :: xs, y :: ys =>
    if x < y then true else if y < x then false else strcmpLtB xs ys

/-- The accumulator loop of `ly_ctx_get_module_by` (context.c:260-291).
The byte-offset field access (`*(char**)(((char*)…) + offset)`) is the
field selector `key`. -/
def getModByGo (key : lys_module_m → String) (k : String) (revision : Option String) :
    List (Option lys_module_m) → Option lys_module_m → Option lys_module_m
  | [], result => result
  | none :: rest, result => getModByGo key k revision rest result
  | some m :: rest, result =>
    if key m ≠ k then getModByGo key k revision rest result
    else
      match revision with
      | none =>
        match result with
        | some r =>
          if m.revs.length = 0 then getModByGo key k revision rest (some r)
          else if r.revs.length ≠ 0 ∧
              strcmpLtB (m.revs.headD "").data (r.revs.headD "").data = true then
            getModByGo key k revision rest (some r)
          else getModByGo key k revision rest (some m)
        | none => getModByGo key k revision rest (some m)
      | some rev =>
        if m.revs.length ≠ 0 ∧ m.revs.headD "" = rev then some m
        else getModByGo key k revision rest result

/-- `ly_ctx_get_module_by` (context.c:249-295). -/
def ly_ctx_get_module_by (list : List (Option lys_module_m)) (key : lys_module_m → String)
    (k : String) (revision : Option String) : Option lys_module_m :=
  getModByGo key k revision list none

/-- `ly_ctx_get_module` (context.c:303-307): lookup by the `name`
field. -/
def ly_ctx_get_module (list : List (Option lys_module_m)) (name : String)
    (revision : Option String) : Option lys_module_m :=
  ly_ctx_get_module_by list (fun m => m.name) name revision

/-- `ly_ctx_get_module_by_ns` (context.c:297-301): lookup by the `ns`
field. -/
def ly_ctx_get_module_by_ns (list : List (Option lys_module_m)) (ns : String)
    (revision : Option String) : Option lys_module_m :=
  ly_ctx_get_module_by list (fun m => m.ns) ns revision

/-- The context fields read here (`ctx->models`). -/
structure ly_ctx_m : Type where
  list : List (Option lys_module_m)
  module_set_id : Nat
deriving DecidableEq, Repr

/-- Modelled from the spec: `lys_parse_mem` (parser, not under src/)
applied to one of the four built-in module texts embedded in context.c:
it adds the module to the context's list (implemented, no features,
no imports, no submodules in those texts) and advances the
monotonically-assigned module-set counter.  The (name, revision) pairs
come from the `#define …_PATH` lines of context.c:31-34; the namespace
texts live in the model headers outside src/. -/
def lys_parse_mem_m (ctx : ly_ctx_m) (name ns rev : String) : ly_ctx_m :=
  { list := ctx.list ++ [some ⟨name, ns, [rev], true, none, [], [], []⟩],
    module_set_id := ctx.module_set_id + 1 }

/-- The `module->implemented = 0;` lines of `ly_ctx_new`
(context.c:97,105) applied to the just-parsed (last) module. -/
def setLastNotImplemented (ctx : ly_ctx_m) : ly_ctx_m :=
  match ctx.list.getLast? with
  | some (some m) =>
    { ctx with list := ctx.list.dropLast ++ [some { m with implemented := false }] }
  | _ => ctx

/-- `ly_ctx_new` (context.c:42-114) with a NULL search dir: create the
context and load the built-in YANG module, ietf-inet-types,
ietf-yang-types (both then marked not implemented) and
ietf-yang-library. -/
def ly_ctx_new_m : ly_ctx_m :=
  let ctx0 : ly_ctx_m := ⟨[], 1⟩
  let ctx1 := lys_parse_mem_m ctx0 "yang" "urn:ietf:params:xml:ns:yang:1" "2016-02-11"
  let ctx2 := setLastNotImplemented (lys_parse_mem_m ctx1 "ietf-inet-types"
    "urn:ietf:params:xml:ns:yang:ietf-inet-types" "2013-07-15")
  let ctx3 := setLastNotImplemented (lys_parse_mem_m ctx2 "ietf-yang-types"
    "urn:ietf:params:xml:ns:yang:ietf-yang-types" "2013-07-15")
  lys_parse_mem_m ctx3 "ietf-yang-library"
    "urn:ietf:params:xml:ns:yang:ietf-yang-library" "2016-02-01"

/-- A data node produced by `ly_ctx_info` (`lyd_new` containers carry
no value, `lyd_new_leaf` leaves carry one). -/
inductive lyd_m : Type where
  | node (name : String) (value : Option String) (children : List lyd_m)

def lyd_m.name : lyd_m → String
  | .node n _ _ => n

def lyd_m.value : lyd_m → Option String
  | .node _ v _ => v

def lyd_m.children : lyd_m → List lyd_m
  | .node _ _ c => c

/-- `ylib_feature` (context.c:408-438): one `feature` leaf per enabled
feature of the module and of each submodule. -/
def ylib_feature (m : lys_module_m) : List lyd_m :=
  (m.features.filter (fun f => f.2)).map (fun f => .node "feature" (some f.1) []) ++
  (m.incs.map (fun inc =>
    (inc.2.2.2.filter (fun f => f.2)).map (fun f => .node "feature" (some f.1) []))).flatten

/-- `ylib_deviation` (context.c:440-467): one `deviation` container
per external (`external == 2`) entry of the import list. -/
def ylib_deviation (m : lys_module_m) : List lyd_m :=
  (m.imps.filter (fun im => im.1 = 2)).map (fun im =>
    .node "deviation" none [.node "name" (some im.2.1) [], .node "revision" (some im.2.2) []])

/-- `ylib_submodules` (context.c:469-506): a `submodules` container
(only when there are includes) holding one `submodule` entry each. -/
def ylib_submodules (m : lys_module_m) : List lyd_m :=
  if m.incs.isEmpty then []
  else
    [.node "submodules" none (m.incs.map (fun inc =>
      .node "submodule" none
        ([.node "name" (some inc.1) [],
          .node "revision" (some (inc.2.1.headD "")) []] ++
         (match inc.2.2.1 with
          | some fp => [.node "schema" (some ("file://" ++ fp)) []]
          | none => []))))]

/-- The per-module `module` entry built by the loop of `ly_ctx_info`
(context.c:533-587). -/
def ylib_module_entry (m : lys_module_m) : lyd_m :=
  .node "module" none
    ([.node "name" (some m.name) [],
      .node "revision" (some (m.revs.headD "")) []] ++
     (match m.filepath with
      | some fp => [.node "schema" (some ("file://" ++ fp)) []]
      | none => []) ++
     [.node "namespace" (some m.ns) []] ++
     ylib_feature m ++
     ylib_deviation m ++
     [.node "conformance-type" (some (if m.implemented then "implement" else "import")) []] ++
     ylib_submodules m)

/-- `ly_ctx_info` (context.c:508-601).  `lyd_new`/`lyd_new_leaf`
(tree_data.c, not under src/) construct the nodes in call order;
`lyd_validate` of the produced `modules-state` tree is modelled as
succeeding (the tree conforms to ietf-yang-library by construction). -/
def ly_ctx_info (ctx : ly_ctx_m) : Option lyd_m :=
  match ly_ctx_get_module ctx.list "ietf-yang-library" (some "2016-02-01") with
  | none => none
  | some _ =>
    some (.node "modules-state" none
      ((ctx.list.filterMap (fun om => om.map ylib_module_entry)) ++
       [.node "module-set-id" (some (toString ctx.module_set_id)) []]))

/-- Does a `module` entry carry a `name` leaf with value `nm` and a
`conformance-type` leaf with value `conf`? -/
def moduleEntryIs (t : lyd_m) (nm conf : String) : Bool :=
  t.name = "module" &&
  t.children.any (fun c => c.name = "name" && c.value = some nm) &&
  t.children.any (fun c => c.name = "conformance-type" && c.value = some conf)

/-- The pure re-scan of a schema-nodeid with the same `is_relative`
threading as the resolvers: the 1-based offset of the first offending
character when iterated parsing fails, `none` when every segment
parses and the string is exhausted. -/
def nodeidScanFail : Str → Int → Nat → Option Int
  | id, isRel, consumed =>
    if h : (parse_schema_nodeid id isRel).ret < 1 then
      some ((consumed : Int) - (parse_schema_nodeid id isRel).ret + 1)
    else if (id.drop (parse_schema_nodeid id isRel).ret.toNat).isEmpty then none
    else
      nodeidScanFail (id.drop (parse_schema_nodeid id isRel).ret.toNat)
        (parse_schema_nodeid id isRel).is_relative
        (consumed + (parse_schema_nodeid id isRel).ret.toNat)
termination_by id _ _ => id.length
decreasing_by
  exact parse_schema_nodeid_drop_lt h

/-! ## Theorems -/

/-- C1: the claim says `parse_identifier` returns `k ≥ 1` iff the
input starts with a grammar-conforming identifier whose first three
characters are not a case-insensitive "xml" (all eight casings
rejected), and the function's own doc comment demands the same — but
the code's second conjunct compares `id[0]` (not `id[1]`) with `'M'`,
so the casings with an upper-case M are accepted: on "XMl", whose
first three characters are "xml" case-insensitively, the function
returns 3 instead of a non-positive value. -/
theorem C1_parse_identifier_xml_bug :
    parse_identifier ("XMl".toList) = 3 ∧
    specXmlStart ("XMl".toList) = true ∧
    grammarOkFirst (charAt ("XMl".toList) 0) = true := by
  decide

/-- C2 counterexample: under the superior restriction `1..100` of a
derived int16 type, the child restriction "50..60 | 10..20" — whose
intervals are *not* in ascending order — is accepted, and the returned
list (superior interval followed by the child's intervals) is neither
pairwise disjoint nor ascending.  This refutes both the
strictly-ascending requirement and the disjoint/ascending result shape
stated by the claim. -/
theorem C2_counterexample :
    resolve_len_ran_interval (some ("50..60 | 10..20".toList))
      (.mk .int16 none (some (.mk .int16 (some ("1..100".toList)) none)))
      = some [⟨1, 1, 100⟩, ⟨1, 50, 60⟩, ⟨1, 10, 20⟩] ∧
    pairwiseAscending [⟨1, 50, 60⟩, ⟨1, 10, 20⟩] = false ∧
    pairwiseAscending [⟨1, 1, 100⟩, ⟨1, 50, 60⟩, ⟨1, 10, 20⟩] = false := by
  refine ⟨?_, by decide, by decide⟩
  simp [resolve_len_ran_interval, parseSegs, parseOneSeg, parseSegMin, parseSegMax,
    skipSpace, dropDigits, digitsVal, atoll, skipSignDigits, storeVal, strchrAfter,
    checkLocal, baseKind, baseMin, baseMax, charAt, isdigitC, isspaceC, List.isPrefixOf]

/-- C5: the claim (and the spec) promise that after a successful
`resolve_unres_data` with auto-delete no node whose when condition
evaluated false remains in the tree.  The code's `resolved` counter,
compared against the number of when items to decide whether another
when pass is needed, also counts non-when items marked resolved inside
a deleted subtree (resolve.c:5141-5142), so the when loop can exit
while a when item was never evaluated; that item is then resolved in
the residual pass, where a false result is *not* followed by
unlinking.  On the four-item worklist below the driver returns success
while node 1, whose when evaluated false, is still the child of root
node 0. -/
theorem C5_when_false_node_survives :
    (resolve_unres_data
        (fun n => if n = 1 then .wfalse else if n = 2 then .wfalse else .wtrue)
        (fun _ => 0) true false
        ⟨[⟨1, false, 4, none, [1]⟩, ⟨4, false, 4, some 0, []⟩,
          ⟨1, false, 4, none, [3]⟩, ⟨4, false, 0, some 2, []⟩], [0, 2], []⟩
        [.whenK, .whenK, .otherK, .whenK] [1, 2, 3, 0]).rc = 0 ∧
    (resolve_unres_data
        (fun n => if n = 1 then .wfalse else if n = 2 then .wfalse else .wtrue)
        (fun _ => 0) true false
        ⟨[⟨1, false, 4, none, [1]⟩, ⟨4, false, 4, some 0, []⟩,
          ⟨1, false, 4, none, [3]⟩, ⟨4, false, 0, some 2, []⟩], [0, 2], []⟩
        [.whenK, .whenK, .otherK, .whenK] [1, 2, 3, 0]).st =
      ⟨[⟨1, false, 5, none, [1]⟩, ⟨4, false, 6, some 0, []⟩,
        ⟨1, false, 6, none, [3]⟩, ⟨4, false, 0, some 2, []⟩], [0], [2, 3]⟩ ∧
    (LYD_WHEN_FALSE &&& 6) ≠ 0 := by
  decide

/-- C6 counterexample: a worklist holding a single Uses item whose
every attempt reports a forward reference makes the pre-phase stall;
`resolve_unres_schema` then returns -1 *without* running the final
diagnostics pass and with diagnostics still hidden
(resolve.c:4663-4665 returns before `ly_vlog_hide(0)`), contradicting
the claim that any failure runs one final pass with diagnostics
visible. -/
theorem C6_counterexample :
    (resolve_unres_schema (σ := Unit) (fun s _ => (s, 1)) [.usesK] ()).rc = -1 ∧
    (resolve_unres_schema (σ := Unit) (fun s _ => (s, 1)) [.usesK] ()).ranFinalDiagPass = false ∧
    (resolve_unres_schema (σ := Unit) (fun s _ => (s, 1)) [.usesK] ()).vlogHiddenAtExit = true := by
  refine ⟨rfl, rfl, rfl⟩

/-- C8 counterexample: in the descendant resolver with the inner-list
restriction (the `resolve_unique` call site), descending into a list
returns -2, not the -1 the claim reserves for every semantic
failure. -/
theorem C8_counterexample :
    resolve_descendant_schema_nodeid [] ("a/b".toList)
        ([.mk ("a".toList) LYS_LIST 0 7 [.mk ("b".toList) LYS_LEAF 0 7 []]], none, 7)
        LYS_LEAF true true = (-2, none) ∧
    (-2 : Int) ≠ -1 := by
  exact ⟨rfl, by decide⟩

/-- C9: the context returned by `ly_ctx_new(NULL)` holds the built-in
YANG module, ietf-inet-types, ietf-yang-types and ietf-yang-library;
`ly_ctx_get_module("ietf-yang-library", "2016-02-01")` finds the
library module; and `ly_ctx_info` produces a modules-state tree with a
module entry for ietf-yang-library whose conformance-type is
"implement" and a module-set-id leaf holding the context's counter
stringified. -/
theorem C9_ctx_new_builtins :
    ((ly_ctx_new_m.list.filterMap id).map (fun m => m.name) =
      ["yang", "ietf-inet-types", "ietf-yang-types", "ietf-yang-library"]) ∧
    (ly_ctx_get_module ly_ctx_new_m.list "ietf-yang-library" (some "2016-02-01")).isSome = true ∧
    (match ly_ctx_info ly_ctx_new_m with
     | some t =>
       t.name = "modules-state" &&
       t.children.any (fun c => moduleEntryIs c "ietf-yang-library" "implement") &&
       t.children.any (fun c =>
         lyd_m.name c = "module-set-id" &&
         lyd_m.value c = some (toString ly_ctx_new_m.module_set_id))
     | none => false) = true := by
  refine ⟨by decide, by decide, ?_⟩
  rfl

/-- C3: in a module defining identities `A { base B; }` and
`B { base A; }` (any two distinct names, any pre-existing `der`
arrays), the first base resolution succeeds, and the second —
whichever identity it is run for — detects the cycle: it returns
`EXIT_FAILURE`, logs the circular-reference message naming the base,
leaves `*ret` NULL and leaves the identity pool, in particular both
`der` back-link arrays, exactly as it found it. -/
theorem C3_identity_cycle (nA nB : Str) (dA dB : List Nat) (hAB : nA ≠ nB) :
    (resolve_base_ident_sub [⟨nA, none, dA⟩, ⟨nB, none, dB⟩] ⟨[0, 1], []⟩ (some 0) nB).rc = 0 ∧
    resolve_base_ident_sub
        (resolve_base_ident_sub [⟨nA, none, dA⟩, ⟨nB, none, dB⟩] ⟨[0, 1], []⟩ (some 0) nB).pool
        ⟨[0, 1], []⟩ (some 1) nA =
      ⟨1, none,
       (resolve_base_ident_sub [⟨nA, none, dA⟩, ⟨nB, none, dB⟩] ⟨[0, 1], []⟩ (some 0) nB).pool,
       [.circularRef nA]⟩ := by
  have h1 : resolve_base_ident_sub [⟨nA, none, dA⟩, ⟨nB, none, dB⟩] ⟨[0, 1], []⟩ (some 0) nB
      = ⟨0, some 1, [⟨nA, some 1, dA⟩, ⟨nB, none, dB ++ [0]⟩], []⟩ := by
    simp [resolve_base_ident_sub, findIdentIn, identNameAt, identMatchFound, baseChainHits,
      identBaseAt, setIdent, addDerChain, hAB]
  rw [h1]
  refine ⟨rfl, ?_⟩
  simp [resolve_base_ident_sub, findIdentIn, identNameAt, identMatchFound, baseChainHits,
    identBaseAt, setIdent, addDerChain, hAB]

/-- Witness for C3 at the names "A"/"B" with empty initial `der`
arrays. -/
theorem C3_identity_cycle_witness :
    ("A".toList : Str) ≠ "B".toList ∧
    ((resolve_base_ident_sub [⟨"A".toList, none, []⟩, ⟨"B".toList, none, []⟩]
        ⟨[0, 1], []⟩ (some 0) ("B".toList)).rc = 0 ∧
     resolve_base_ident_sub
         (resolve_base_ident_sub [⟨"A".toList, none, []⟩, ⟨"B".toList, none, []⟩]
           ⟨[0, 1], []⟩ (some 0) ("B".toList)).pool
         ⟨[0, 1], []⟩ (some 1) ("A".toList) =
       ⟨1, none,
        (resolve_base_ident_sub [⟨"A".toList, none, []⟩, ⟨"B".toList, none, []⟩]
          ⟨[0, 1], []⟩ (some 0) ("B".toList)).pool,
        [.circularRef ("A".toList)]⟩) :=
  ⟨by decide, C3_identity_cycle ("A".toList) ("B".toList) [] [] (by decide)⟩
/-- The `checkLocal` forward scan accepts only local intervals each of
which is a bounds-subset of some superior interval. -/
theorem checkLocal_subset : ∀ (fuel : Nat) (P L : List LenRanIntv), checkLocal fuel P L = true →
    ∀ l ∈ L, ∃ p ∈ P, p.imin ≤ l.imin ∧ l.imin ≤ p.imax ∧ l.imax ≤ p.imax := by
  intro fuel
  induction fuel with
  | zero => intro P L h; simp [checkLocal] at h
  | succ n ih =>
    intro P L h l hl
    match P, L with
    | P, [] => cases hl
    | [], l' :: ls => simp [checkLocal] at h
    | p :: ps, l' :: ls =>
      simp only [checkLocal] at h
      by_cases hc : l'.imin ≥ p.imin ∧ l'.imin ≤ p.imax
      · rw [if_pos hc] at h
        by_cases hm : l'.imax ≤ p.imax
        · rw [if_pos hm] at h
          rcases List.mem_cons.mp hl with rfl | hl'
          · exact ⟨p, List.mem_cons_self _ _, hc.1, hc.2, hm⟩
          · exact ih (p :: ps) ls h l hl'
        · rw [if_neg hm] at h; cases h
      · rw [if_neg hc] at h
        obtain ⟨q, hq, hb⟩ := ih ps (l' :: ls) h l hl
        exact ⟨q, List.mem_cons_of_mem _ hq, hb⟩

/-- C2 (amended): when the superior (derived-from) chain yields a
non-empty effective interval list `P`, `resolve_len_ran_interval` on a
child textual restriction succeeds only if the restriction parses —
with the `min`/`max` keywords bound to the first/last bound of `P`
rather than the base type's limits — and every parsed child interval is
a bounds-subset of some interval of `P` (matched by one forward scan of
`P`); unparseable or out-of-parent-range input yields no interval list.
On success the returned list is `P` followed by the child's intervals,
which need not be pairwise disjoint or ascending, and child intervals
falling inside one parent interval need not be ascending either
(see the counterexample). -/
theorem C2_range_restriction (base : LyTypeBase) (range : Option Str) (d : lys_type)
    (restr : Str) (P r : List LenRanIntv) (pHead pLast : LenRanIntv)
    (hP : resolve_len_ran_interval none d = some P)
    (hhead : P.head? = some pHead) (hlast : P.getLast? = some pLast)
    (hr : resolve_len_ran_interval (some restr) (.mk base range (some d)) = some r) :
    ∃ L, parseSegs (restr.length + 1) restr (baseKind base) pHead.imin pLast.imax = some L ∧
      r = P ++ L ∧
      ∀ l ∈ L, ∃ p ∈ P, p.imin ≤ l.imin ∧ l.imin ≤ p.imax ∧ l.imax ≤ p.imax := by
  have hne : P ≠ [] := by
    intro hP0; rw [hP0] at hhead; cases hhead
  simp only [resolve_len_ran_interval, hP] at hr
  rw [hhead, hlast] at hr
  rcases hps : parseSegs (restr.length + 1) restr (baseKind base) pHead.imin pLast.imax with _ | L
  · rw [hps] at hr; cases hr
  · rw [hps] at hr
    have hie : P.isEmpty = false := by
      cases P with
      | nil => exact absurd rfl hne
      | cons a b => rfl
    rw [hie] at hr
    simp only [Bool.false_eq_true, if_false] at hr
    by_cases hck : checkLocal (P.length + L.length + 1) P L = true
    · rw [if_pos hck] at hr
      refine ⟨L, rfl, ?_, checkLocal_subset _ _ _ hck⟩
      exact (Option.some.injEq _ _).mp hr |>.symm
    · rw [if_neg hck] at hr; cases hr

/-- Witness for C2 at the spec's own S2 example: `int16` restricted to
`1..100`, further restricted to `10..50 | 80..90`. -/
theorem C2_range_restriction_witness :
    (resolve_len_ran_interval none (.mk .int16 (some ("1..100".toList)) none)
        = some [⟨1, 1, 100⟩] ∧
     ([⟨1, 1, 100⟩] : List LenRanIntv).head? = some ⟨1, 1, 100⟩ ∧
     ([⟨1, 1, 100⟩] : List LenRanIntv).getLast? = some ⟨1, 1, 100⟩ ∧
     resolve_len_ran_interval (some ("10..50 | 80..90".toList))
        (.mk .int16 none (some (.mk .int16 (some ("1..100".toList)) none)))
        = some [⟨1, 1, 100⟩, ⟨1, 10, 50⟩, ⟨1, 80, 90⟩]) ∧
    (∃ L, parseSegs (("10..50 | 80..90".toList).length + 1) ("10..50 | 80..90".toList)
          (baseKind .int16) (⟨1, 1, 100⟩ : LenRanIntv).imin (⟨1, 1, 100⟩ : LenRanIntv).imax
          = some L ∧
      [⟨1, 1, 100⟩, ⟨1, 10, 50⟩, ⟨1, 80, 90⟩] = [⟨1, 1, 100⟩] ++ L ∧
      ∀ l ∈ L, ∃ p ∈ ([⟨1, 1, 100⟩] : List LenRanIntv),
        p.imin ≤ l.imin ∧ l.imin ≤ p.imax ∧ l.imax ≤ p.imax) := by
  have h1 : resolve_len_ran_interval none (.mk .int16 (some ("1..100".toList)) none)
      = some [⟨1, 1, 100⟩] := by
    simp [resolve_len_ran_interval, parseSegs, parseOneSeg, parseSegMin, parseSegMax,
      skipSpace, dropDigits, digitsVal, atoll, skipSignDigits, storeVal, strchrAfter,
      checkLocal, baseKind, baseMin, baseMax, charAt, isdigitC, isspaceC, List.isPrefixOf]
  have h2 : resolve_len_ran_interval (some ("10..50 | 80..90".toList))
      (.mk .int16 none (some (.mk .int16 (some ("1..100".toList)) none)))
      = some [⟨1, 1, 100⟩, ⟨1, 10, 50⟩, ⟨1, 80, 90⟩] := by
    simp [resolve_len_ran_interval, parseSegs, parseOneSeg, parseSegMin, parseSegMax,
      skipSpace, dropDigits, digitsVal, atoll, skipSignDigits, storeVal, strchrAfter,
      checkLocal, baseKind, baseMin, baseMax, charAt, isdigitC, isspaceC, List.isPrefixOf]
  exact ⟨⟨h1, rfl, rfl, h2⟩,
    C2_range_restriction .int16 none (.mk .int16 (some ("1..100".toList)) none)
      ("10..50 | 80..90".toList) [⟨1, 1, 100⟩] [⟨1, 1, 100⟩, ⟨1, 10, 50⟩, ⟨1, 80, 90⟩]
      ⟨1, 1, 100⟩ ⟨1, 1, 100⟩ h1 rfl rfl h2⟩


/-- C4 counterexample: the target is config true (`LYS_CONFIG_W`); the
augment adds a container whose config is explicitly set
(`LYS_CONFIG_SET | LYS_CONFIG_R`).  `inherit_config_flag` has no
`LYS_CONFIG_SET` exception: it ORs the target's config bit into the
node, so the added node ends with both config bits
(`LYS_CONFIG_SET | LYS_CONFIG_R | LYS_CONFIG_W`) instead of keeping its
explicit `LYS_CONFIG_R`, refuting the claim's exception for nodes
whose config is explicitly set. -/

theorem C4_counterexample :
    resolve_augment (.mk ("aug".toList) LYS_AUGMENT 0 0
        [.mk ("x".toList) LYS_CONTAINER (LYS_CONFIG_SET ||| LYS_CONFIG_R) 0 []])
      false (.mk ("t".toList) LYS_CONTAINER LYS_CONFIG_W 0 []) 0
      = .ok (LYS_CONFIG_W, .mk ("t".toList) LYS_CONTAINER LYS_CONFIG_W 0
        [.mk ("x".toList) LYS_CONTAINER (LYS_CONFIG_SET ||| LYS_CONFIG_R ||| LYS_CONFIG_W) 0 []]) ∧
    (LYS_CONFIG_SET ||| LYS_CONFIG_R ||| LYS_CONFIG_W) ≠ (LYS_CONFIG_SET ||| LYS_CONFIG_R) ∧
    ((LYS_CONFIG_SET ||| LYS_CONFIG_R) &&& LYS_CONFIG_SET) ≠ 0 := by
  refine ⟨?_, by decide, by decide⟩
  simp [resolve_augment, augmentConnect, inherit_config_flag, lyp_check_mandatory, lys_check_id,
    LYS_AUGMENT, LYS_CONTAINER, LYS_CONFIG_SET, LYS_CONFIG_R, LYS_CONFIG_W, LYS_CONFIG_MASK,
    LYS_MAND_TRUE, LYS_LIST, LYS_CASE, LYS_INPUT, LYS_OUTPUT, LYS_NOTIF, LYS_ANYXML, LYS_LEAF,
    LYS_LEAFLIST, LYS_USES, LYS_CHOICE, lys_node.children, lys_node.nodetype, lys_node.flags,
    lys_node.module, lys_node.name]


/-- Helper for C4: everything `inherit_config_flag` returns satisfies
the spec-level `InheritedOk` relation (every node carries its updated
parent's config bits). -/
theorem inherit_config_flag_ok (k : Nat) :
    ∀ (l : List lys_node) (pf : Nat), sizeOf l ≤ k →
      ∀ n ∈ inherit_config_flag pf l, InheritedOk pf n := by
  induction k with
  | zero =>
    intro l pf hs n hn
    cases l with
    | nil => simp [inherit_config_flag] at hn
    | cons a rest => simp [List.cons.sizeOf_spec] at hs
  | succ k ih =>
    intro l pf hs n hn
    cases l with
    | nil => simp [inherit_config_flag] at hn
    | cons head rest =>
      cases head with
      | mk nm nt fl md ch =>
        simp only [inherit_config_flag] at hn
        have hsz : sizeOf (lys_node.mk nm nt fl md ch :: rest) = 
            1 + sizeOf (lys_node.mk nm nt fl md ch) + sizeOf rest := by
          simp [List.cons.sizeOf_spec]
        rcases List.mem_cons.mp hn with rfl | hmem
        · refine InheritedOk.intro _ nm nt _ md _ ?_ ?_
          · intro i hbit
            simp [Nat.testBit_lor, hbit]
          · intro c hc
            refine ih ch (fl ||| (pf &&& LYS_CONFIG_MASK)) ?_ c hc
            have : sizeOf (lys_node.mk nm nt fl md ch) = 
                1 + sizeOf nm + sizeOf nt + sizeOf fl + sizeOf md + sizeOf ch := by
              simp [lys_node.mk.sizeOf_spec]
            omega
        · refine ih rest pf ?_ n hmem
          omega

/-- Helper for C4: what the connect tail of `resolve_augment`
guarantees on success. -/

theorem augmentConnect_ok (aug target : lys_node) (fl : Nat) (t' : lys_node)
    (h : augmentConnect aug target = .ok (fl, t')) :
    fl = aug.flags ||| (target.flags &&& LYS_CONFIG_MASK) ∧
    t' = .mk target.name target.nodetype target.flags target.module
      (target.children ++ inherit_config_flag target.flags aug.children) ∧
    ∀ sub ∈ inherit_config_flag target.flags aug.children,
      ∀ t ∈ target.children, lys_node.name t ≠ lys_node.name sub := by
  unfold augmentConnect at h
  by_cases hd : (inherit_config_flag target.flags aug.children).any
      (fun sub => lys_check_id sub target.children) = true
  · rw [if_pos hd] at h; cases h
  · rw [if_neg hd] at h
    have hinj := h
    injection hinj with hp
    injection hp with hfl ht
    refine ⟨hfl.symm, ht.symm, ?_⟩
    intro sub hsub t htc
    have hfalse : (inherit_config_flag target.flags aug.children).any
        (fun sub => lys_check_id sub target.children) = false := by
      cases hv : (inherit_config_flag target.flags aug.children).any
          (fun sub => lys_check_id sub target.children) with
      | true => exact absurd hv hd
      | false => rfl
    have h1 := (List.any_eq_false.mp hfalse) sub hsub
    have h2 : lys_check_id sub target.children = false := by
      cases hv : lys_check_id sub target.children with
      | true => exact absurd hv h1
      | false => rfl
    unfold lys_check_id at h2
    have h3 := (List.any_eq_false.mp h2) t htc
    intro heq
    exact h3 (by simp [heq])

/-- C4 (amended): for an augment whose target resolved and which has
children, success means: the augment's flags gain the target's config
bits; the target's new child list is its old children followed by the
augment's children (both orders preserved); config is propagated down
into every node of each added subtree by OR-ing the (updated) parent's
config bits into the node — including nodes whose config is explicitly
set (`LYS_CONFIG_SET`), which therefore can end up with both config
bits; no added child's name collides with an existing child of the
target (a collision is rejected with `DuplicateId`); and a standalone
augment into another module succeeds only without mandatory nodes. -/

theorem C4_augment_splice (aug : lys_node) (pUses : Bool) (target : lys_node) (tmod : Nat)
    (fl : Nat) (t' : lys_node)
    (hok : resolve_augment aug pUses target tmod = .ok (fl, t'))
    (hne : aug.children ≠ []) :
    fl = aug.flags ||| (target.flags &&& LYS_CONFIG_MASK) ∧
    t' = .mk target.name target.nodetype target.flags target.module
      (target.children ++ inherit_config_flag target.flags aug.children) ∧
    (∀ n ∈ inherit_config_flag target.flags aug.children, InheritedOk target.flags n) ∧
    (∀ sub ∈ inherit_config_flag target.flags aug.children,
       ∀ t ∈ target.children, lys_node.name t ≠ lys_node.name sub) ∧
    (pUses = false → aug.module ≠ tmod → lyp_check_mandatory aug.children = false) := by
  unfold resolve_augment at hok
  have hie : aug.children.isEmpty = false := by
    cases hch : aug.children with
    | nil => exact absurd hch hne
    | cons a b => rfl
  simp only [hie, Bool.false_eq_true, if_false] at hok
  by_cases hm : ((!pUses) && (aug.module != tmod) && lyp_check_mandatory aug.children) = true
  · rw [if_pos hm] at hok; cases hok
  · rw [if_neg hm] at hok
    have hmand : pUses = false → aug.module ≠ tmod → lyp_check_mandatory aug.children = false := by
      intro hp hmod
      cases hv : lyp_check_mandatory aug.children with
      | false => rfl
      | true =>
        exfalso
        apply hm
        simp [hp, hv, bne_iff_ne, hmod]
    by_cases ht1 : (target.nodetype &&&
        (LYS_CONTAINER ||| LYS_LIST ||| LYS_CASE ||| LYS_INPUT ||| LYS_OUTPUT ||| LYS_NOTIF)) ≠ 0
    · rw [if_pos ht1] at hok
      by_cases hc1 : aug.children.all (fun sub => (sub.nodetype &&&
          (LYS_ANYXML ||| LYS_CONTAINER ||| LYS_LEAF ||| LYS_LIST ||| LYS_LEAFLIST |||
           LYS_USES ||| LYS_CHOICE)) ≠ 0) = true
      · rw [if_pos hc1] at hok
        obtain ⟨h1, h2, h3⟩ := augmentConnect_ok _ _ _ _ hok
        exact ⟨h1, h2, inherit_config_flag_ok (sizeOf aug.children) _ _ le_rfl, h3, hmand⟩
      · rw [if_neg hc1] at hok; cases hok
    · rw [if_neg ht1] at hok
      by_cases ht2 : target.nodetype = LYS_CHOICE
      · rw [if_pos ht2] at hok
        by_cases hc2 : aug.children.all (fun sub => (sub.nodetype &&&
            (LYS_CASE ||| LYS_ANYXML ||| LYS_CONTAINER ||| LYS_LEAF ||| LYS_LIST |||
             LYS_LEAFLIST)) ≠ 0) = true
        · rw [if_pos hc2] at hok
          obtain ⟨h1, h2, h3⟩ := augmentConnect_ok _ _ _ _ hok
          exact ⟨h1, h2, inherit_config_flag_ok (sizeOf aug.children) _ _ le_rfl, h3, hmand⟩
        · rw [if_neg hc2] at hok; cases hok
      · rw [if_neg ht2] at hok; cases hok

/-- Witness for C4 at a one-leaf augment into a config-true container
of the same module. -/
theorem C4_augment_splice_witness :
    (resolve_augment (.mk ("aug".toList) LYS_AUGMENT 0 0 [.mk ("x".toList) LYS_LEAF 0 0 []])
        false (.mk ("t".toList) LYS_CONTAINER LYS_CONFIG_W 0 []) 0
      = .ok (1, .mk ("t".toList) LYS_CONTAINER LYS_CONFIG_W 0
          ((lys_node.children (.mk ("t".toList) LYS_CONTAINER LYS_CONFIG_W 0 [])) ++
           inherit_config_flag LYS_CONFIG_W [.mk ("x".toList) LYS_LEAF 0 0 []]))) ∧
    (lys_node.children (.mk ("aug".toList) LYS_AUGMENT 0 0 [.mk ("x".toList) LYS_LEAF 0 0 []])
      ≠ []) ∧
    ((1 : Nat) = 0 ||| (LYS_CONFIG_W &&& LYS_CONFIG_MASK) ∧
     (.mk ("t".toList) LYS_CONTAINER LYS_CONFIG_W 0
          ([] ++ inherit_config_flag LYS_CONFIG_W [.mk ("x".toList) LYS_LEAF 0 0 []]) : lys_node)
       = .mk ("t".toList) LYS_CONTAINER LYS_CONFIG_W 0
          ([] ++ inherit_config_flag LYS_CONFIG_W [.mk ("x".toList) LYS_LEAF 0 0 []]) ∧
     (∀ n ∈ inherit_config_flag LYS_CONFIG_W [.mk ("x".toList) LYS_LEAF 0 0 []],
        InheritedOk LYS_CONFIG_W n) ∧
     (∀ sub ∈ inherit_config_flag LYS_CONFIG_W [.mk ("x".toList) LYS_LEAF 0 0 []],
        ∀ t ∈ ([] : List lys_node), lys_node.name t ≠ lys_node.name sub) ∧
     (false = false → (0 : Nat) ≠ 0 → lyp_check_mandatory [.mk ("x".toList) LYS_LEAF 0 0 []] = false)) := by
  have hok : resolve_augment (.mk ("aug".toList) LYS_AUGMENT 0 0 [.mk ("x".toList) LYS_LEAF 0 0 []])
      false (.mk ("t".toList) LYS_CONTAINER LYS_CONFIG_W 0 []) 0
      = .ok (1, .mk ("t".toList) LYS_CONTAINER LYS_CONFIG_W 0
          ([] ++ inherit_config_flag LYS_CONFIG_W [.mk ("x".toList) LYS_LEAF 0 0 []])) := by
    simp [resolve_augment, augmentConnect, inherit_config_flag, lyp_check_mandatory, lys_check_id,
      LYS_AUGMENT, LYS_CONTAINER, LYS_CONFIG_W, LYS_CONFIG_MASK, LYS_MAND_TRUE, LYS_LIST,
      LYS_CASE, LYS_INPUT, LYS_OUTPUT, LYS_NOTIF, LYS_ANYXML, LYS_LEAF, LYS_LEAFLIST, LYS_USES,
      LYS_CHOICE, lys_node.children, lys_node.nodetype, lys_node.flags, lys_node.module,
      lys_node.name]
  have hne : lys_node.children
      (.mk ("aug".toList) LYS_AUGMENT 0 0 [.mk ("x".toList) LYS_LEAF 0 0 []]) ≠ [] := by
    simp [lys_node.children]
  have hmain := C4_augment_splice
    (.mk ("aug".toList) LYS_AUGMENT 0 0 [.mk ("x".toList) LYS_LEAF 0 0 []]) false
    (.mk ("t".toList) LYS_CONTAINER LYS_CONFIG_W 0 []) 0 1
    (.mk ("t".toList) LYS_CONTAINER LYS_CONFIG_W 0
      ([] ++ inherit_config_flag LYS_CONFIG_W [.mk ("x".toList) LYS_LEAF 0 0 []])) hok hne
  exact ⟨hok, hne, hmain⟩

/-- Helper for C7: what `check_key` returning no error guarantees, in
the check order of resolve.c:2373-2436. -/

theorem check_key_none (lf : Nat) (prev : List (Nat × KeyChild)) (key : Nat × KeyChild)
    (h : check_key lf prev key = none) :
    (∀ a ∈ prev, a.1 ≠ key.1) ∧ key.2.nodetype = LYS_LEAF ∧ key.2.typeBase ≠ LY_TYPE_EMPTY ∧
    (lf &&& LYS_CONFIG_MASK) = (key.2.flags &&& LYS_CONFIG_MASK) ∧
    key.2.parentNodetype ≠ LYS_AUGMENT ∧ key.2.hasWhen = false := by
  unfold check_key at h
  split at h
  · cases h
  · rename_i h1
    split at h
    · cases h
    · rename_i h2
      split at h
      · cases h
      · rename_i h3
        split at h
        · cases h
        · rename_i h4
          split at h
          · cases h
          · rename_i h5
            split at h
            · cases h
            · rename_i h6
              refine ⟨?_, ?_, h3, ?_, h5, ?_⟩
              · intro a ha
                have := List.any_eq_false.mp (by
                  cases hv : prev.any (fun k => decide (k.1 = key.1)) with
                  | true => exact absurd (by exact_mod_cast hv) h1
                  | false => rfl) a ha
                simpa using this
              · by_contra hne; exact h2 hne
              · by_contra hne; exact h4 hne
              · cases hv : key.2.hasWhen with
                | false => rfl
                | true => exact absurd (by exact_mod_cast hv) h6

/-- Helper for C7: the search loop of the modelled `lys_get_sibling`
finds an entry at the returned position with the requested name and a
nodetype in the mask. -/

theorem lys_get_sibling_go_spec (nam : Str) (mask : Nat) :
    ∀ (l : List KeyChild) (i j : Nat) (c : KeyChild),
      lys_get_sibling.go nam mask i l = some (j, c) →
      ∃ d, j = i + d ∧ l[d]? = some c ∧ c.name = nam ∧ (c.nodetype &&& mask) ≠ 0 := by
  intro l
  induction l with
  | nil => intro i j c h; simp [lys_get_sibling.go] at h
  | cons x rest ih =>
    intro i j c h
    simp only [lys_get_sibling.go] at h
    split at h
    · rename_i hcond
      injection h with hp
      injection hp with hj hc
      exact ⟨0, by omega, by simp [← hc], by rw [← hc]; exact hcond.1, by rw [← hc]; exact hcond.2⟩
    · obtain ⟨d, hd, hget, hnm, hmask⟩ := ih (i + 1) j c h
      exact ⟨d + 1, by omega, by simpa using hget, hnm, hmask⟩

theorem lys_get_sibling_spec (children : List KeyChild) (nam : Str) (mask : Nat)
    (j : Nat) (c : KeyChild) (h : lys_get_sibling children nam mask = some (j, c)) :
    children[j]? = some c ∧ c.name = nam ∧ (c.nodetype &&& mask) ≠ 0 := by
  obtain ⟨d, hd, hget, hnm, hmask⟩ := lys_get_sibling_go_spec nam mask children 0 j c h
  subst hd
  simpa using ⟨hget, hnm, hmask⟩

/-- Helper for C7: inductive invariant of the key-resolution loop. -/

theorem rlkLoop_success (lst : ListNode) :
    ∀ (i : Nat) (s : Str) (acc keys : List (Nat × KeyChild)),
      rlkLoop lst i s acc = .success keys →
      ∃ suff, keys = acc ++ suff ∧ suff.length = i ∧
        (∀ k ∈ suff,
          lst.children[k.1]? = some k.2 ∧ k.2.nodetype = LYS_LEAF ∧
          k.2.typeBase ≠ LY_TYPE_EMPTY ∧
          (lst.flags &&& LYS_CONFIG_MASK) = (k.2.flags &&& LYS_CONFIG_MASK) ∧
          k.2.parentNodetype ≠ LYS_AUGMENT ∧ k.2.hasWhen = false) ∧
        (∀ k ∈ suff, ∀ a ∈ acc, a.1 ≠ k.1) ∧
        suff.Pairwise (fun a b => a.1 ≠ b.1) := by
  intro i
  induction i with
  | zero =>
    intro s acc keys h
    simp only [rlkLoop] at h
    injection h with hk
    exact ⟨[], by simp [hk], rfl, by simp, by simp, List.Pairwise.nil⟩
  | succ n ih =>
    intro s acc keys h
    simp only [rlkLoop] at h
    split at h
    · cases h
    · rename_i kc hg
      split at h
      · cases h
      · rename_i hck
        split at h
        · cases h
        · obtain ⟨suff', heq, hlen, hgood, hcross, hpw⟩ := ih _ _ _ h
          obtain ⟨hdup, hleaf, htype, hcfg, haug, hwhen⟩ := check_key_none _ _ _ hck
          obtain ⟨hget, _hnm, hmask⟩ := lys_get_sibling_spec _ _ _ _ _ hg
          refine ⟨kc :: suff', by simp [heq], by simp [hlen], ?_, ?_, ?_⟩
          · intro k hk
            rcases List.mem_cons.mp hk with rfl | hmem
            · exact ⟨hget, hleaf, htype, hcfg, haug, hwhen⟩
            · exact hgood k hmem
          · intro k hk a ha
            rcases List.mem_cons.mp hk with rfl | hmem
            · exact hdup a ha
            · exact hcross k hmem a (by simp [ha])
          · refine List.Pairwise.cons ?_ hpw
            intro b hb
            have := hcross b hb kc (by simp)
            exact this

/-- C7: `resolve_list_keys` succeeds only if every whitespace-separated
key name resolves to an immediate child of the list that is a leaf,
distinct (by identity) from all previously resolved keys, whose type is
not the built-in empty, whose config flag equals the list's, that is
not inserted through an augment and has no when condition; any
violation fails with the corresponding key error. -/

theorem C7_list_keys (lst : ListNode) (keys_str : Str) (keys : List (Nat × KeyChild))
    (h : resolve_list_keys lst keys_str = .success keys) :
    keys.length = lst.keys_size ∧
    (∀ k ∈ keys, lst.children[k.1]? = some k.2 ∧ k.2.nodetype = LYS_LEAF ∧
      k.2.typeBase ≠ LY_TYPE_EMPTY ∧
      (lst.flags &&& LYS_CONFIG_MASK) = (k.2.flags &&& LYS_CONFIG_MASK) ∧
      k.2.parentNodetype ≠ LYS_AUGMENT ∧ k.2.hasWhen = false) ∧
    keys.Pairwise (fun a b => a.1 ≠ b.1) := by
  obtain ⟨suff, heq, hlen, hgood, _, hpw⟩ :=
    rlkLoop_success lst lst.keys_size keys_str [] keys h
  simp only [List.nil_append] at heq
  subst heq
  exact ⟨hlen, hgood, hpw⟩

theorem C7_list_keys_witness :
    (resolve_list_keys ⟨1, 2, [⟨"k1".toList, 4, 1, 1, 16, false⟩, ⟨"k2".toList, 4, 1, 1, 16, false⟩,
        ⟨"o".toList, 4, 1, 1, 16, false⟩]⟩ ("k1 k2".toList)
      = .success [(0, ⟨"k1".toList, 4, 1, 1, 16, false⟩), (1, ⟨"k2".toList, 4, 1, 1, 16, false⟩)]) ∧
    ([(0, (⟨"k1".toList, 4, 1, 1, 16, false⟩ : KeyChild)), (1, ⟨"k2".toList, 4, 1, 1, 16, false⟩)].length =
      (⟨1, 2, [⟨"k1".toList, 4, 1, 1, 16, false⟩, ⟨"k2".toList, 4, 1, 1, 16, false⟩,
        ⟨"o".toList, 4, 1, 1, 16, false⟩]⟩ : ListNode).keys_size ∧
     (∀ k ∈ [(0, (⟨"k1".toList, 4, 1, 1, 16, false⟩ : KeyChild)), (1, ⟨"k2".toList, 4, 1, 1, 16, false⟩)],
        (⟨1, 2, [⟨"k1".toList, 4, 1, 1, 16, false⟩, ⟨"k2".toList, 4, 1, 1, 16, false⟩,
          ⟨"o".toList, 4, 1, 1, 16, false⟩]⟩ : ListNode).children[k.1]? = some k.2 ∧
        k.2.nodetype = LYS_LEAF ∧ k.2.typeBase ≠ LY_TYPE_EMPTY ∧
        ((⟨1, 2, [⟨"k1".toList, 4, 1, 1, 16, false⟩, ⟨"k2".toList, 4, 1, 1, 16, false⟩,
          ⟨"o".toList, 4, 1, 1, 16, false⟩]⟩ : ListNode).flags &&& LYS_CONFIG_MASK) =
          (k.2.flags &&& LYS_CONFIG_MASK) ∧
        k.2.parentNodetype ≠ LYS_AUGMENT ∧ k.2.hasWhen = false) ∧
     [(0, (⟨"k1".toList, 4, 1, 1, 16, false⟩ : KeyChild)),
      (1, ⟨"k2".toList, 4, 1, 1, 16, false⟩)].Pairwise (fun a b => a.1 ≠ b.1)) := by
  have hsucc : resolve_list_keys ⟨1, 2, [⟨"k1".toList, 4, 1, 1, 16, false⟩,
      ⟨"k2".toList, 4, 1, 1, 16, false⟩, ⟨"o".toList, 4, 1, 1, 16, false⟩]⟩ ("k1 k2".toList)
      = .success [(0, ⟨"k1".toList, 4, 1, 1, 16, false⟩), (1, ⟨"k2".toList, 4, 1, 1, 16, false⟩)] := by
    decide
  exact ⟨hsucc, C7_list_keys _ _ _ hsucc⟩

theorem strcmpLtB_irrefl : ∀ a : List Char, strcmpLtB a a = false
  | [] => rfl
  | x :: xs => by
    simp only [strcmpLtB, lt_irrefl, if_false, if_neg (lt_irrefl x)]
    exact strcmpLtB_irrefl xs

theorem strcmpLtB_trans : ∀ a b c : List Char,
    strcmpLtB a b = true → strcmpLtB b c = true → strcmpLtB a c = true
  | [], [], _, h1, _ => by simp [strcmpLtB] at h1
  | [], _ :: _, [], _, h2 => by simp [strcmpLtB] at h2
  | [], _ :: _, _ :: _, _, _ => rfl
  | _ :: _, [], _, h1, _ => by simp [strcmpLtB] at h1
  | _ :: _, _ :: _, [], _, h2 => by simp [strcmpLtB] at h2
  | x :: xs, y :: ys, z :: zs, h1, h2 => by
    simp only [strcmpLtB] at h1 h2 ⊢
    by_cases hxy : x < y
    · by_cases hyz : y < z
      · rw [if_pos (lt_trans hxy hyz)]
      · rw [if_neg hyz] at h2
        by_cases hzy : z < y
        · rw [if_pos hzy] at h2; exact absurd h2 (by simp)
        · have hzyeq : z = y := le_antisymm (not_lt.mp hyz) (not_lt.mp hzy)
          subst hzyeq
          rw [if_pos hxy]
    · rw [if_neg hxy] at h1
      by_cases hyx : y < x
      · rw [if_pos hyx] at h1; exact absurd h1 (by simp)
      · rw [if_neg hyx] at h1
        have hxyeq : x = y := le_antisymm (not_lt.mp hyx) (not_lt.mp hxy)
        subst hxyeq
        by_cases hxz : x < z
        · rw [if_pos hxz]
        · rw [if_neg hxz] at h2 ⊢
          by_cases hzx : z < x
          · rw [if_pos hzx] at h2; exact absurd h2 (by simp)
          · rw [if_neg hzx] at h2 ⊢
            exact strcmpLtB_trans xs ys zs h1 h2

theorem strcmpLtB_antisymm : ∀ a b : List Char,
    strcmpLtB a b = false → strcmpLtB b a = false → a = b
  | [], [], _, _ => rfl
  | [], _ :: _, h1, _ => by simp [strcmpLtB] at h1
  | _ :: _, [], _, h2 => by simp [strcmpLtB] at h2
  | x :: xs, y :: ys, h1, h2 => by
    simp only [strcmpLtB] at h1 h2
    by_cases hxy : x < y
    · rw [if_pos hxy] at h1; exact absurd h1 (by simp)
    · by_cases hyx : y < x
      · rw [if_pos hyx] at h2; exact absurd h2 (by simp)
      · rw [if_neg hxy, if_neg hyx] at h1
        rw [if_neg hyx, if_neg hxy] at h2
        have hxyeq : x = y := le_antisymm (not_lt.mp hyx) (not_lt.mp hxy)
        rw [hxyeq, strcmpLtB_antisymm xs ys h1 h2]

theorem strcmpLeB_trans (a b c : List Char) (h1 : strcmpLtB b a = false)
    (h2 : strcmpLtB c b = false) : strcmpLtB c a = false := by
  cases hca : strcmpLtB c a with
  | false => rfl
  | true =>
    cases hab : strcmpLtB a b with
    | true =>
      have := strcmpLtB_trans c a b hca hab
      rw [h2] at this
      exact Bool.noConfusion this
    | false =>
      have heq : a = b := strcmpLtB_antisymm a b hab h1
      rw [heq] at hca
      rw [h2] at hca
      exact Bool.noConfusion hca

theorem strcmpLtLeB_trans (a b c : List Char) (h1 : strcmpLtB a b = true)
    (h2 : strcmpLtB c b = false) : strcmpLtB c a = false := by
  cases hca : strcmpLtB c a with
  | false => rfl
  | true =>
    have := strcmpLtB_trans c a b hca h1
    rw [h2] at this
    exact Bool.noConfusion this

theorem getModByGo_rev_sound (key : lys_module_m → String) (k rev : String) :
    ∀ (l : List (Option lys_module_m)) (res : Option lys_module_m) (m : lys_module_m),
      getModByGo key k (some rev) l res = some m →
      res = some m ∨ (some m ∈ l ∧ key m = k ∧ m.revs ≠ [] ∧ m.revs.headD "" = rev) := by
  intro l
  induction l with
  | nil => intro res m h; exact Or.inl h
  | cons x rest ih =>
    intro res m h
    cases x with
    | none =>
      rcases ih res m h with h' | ⟨hm, hk, hr, hd⟩
      · exact Or.inl h'
      · exact Or.inr ⟨List.mem_cons_of_mem _ hm, hk, hr, hd⟩
    | some a =>
      simp only [getModByGo] at h
      split at h
      · rcases ih res m h with h' | ⟨hm, hk, hr, hd⟩
        · exact Or.inl h'
        · exact Or.inr ⟨List.mem_cons_of_mem _ hm, hk, hr, hd⟩
      · rename_i hka
        split at h
        · rename_i hcond
          injection h with hm
          subst hm
          refine Or.inr ⟨List.mem_cons_self _ _, not_not.mp hka, ?_, hcond.2⟩
          intro hnil
          exact hcond.1 (by rw [hnil]; rfl)
        · rcases ih res m h with h' | ⟨hm, hk, hr, hd⟩
          · exact Or.inl h'
          · exact Or.inr ⟨List.mem_cons_of_mem _ hm, hk, hr, hd⟩

theorem getModByGo_rev_none (key : lys_module_m → String) (k rev : String) :
    ∀ (l : List (Option lys_module_m)) (res : Option lys_module_m),
      getModByGo key k (some rev) l res = none →
      ∀ m, some m ∈ l → key m = k → m.revs ≠ [] → m.revs.headD "" ≠ rev := by
  intro l
  induction l with
  | nil => intro res h m hm; cases hm
  | cons x rest ih =>
    intro res h m hm hk hr
    cases x with
    | none =>
      rcases List.mem_cons.mp hm with heq | hmem
      · cases heq
      · exact ih res h m hmem hk hr
    | some a =>
      simp only [getModByGo] at h
      rcases List.mem_cons.mp hm with heq | hmem
      · injection heq with heqa
        subst heqa
        split at h
        · rename_i hka; exact absurd hk hka
        · split at h
          · cases h
          · rename_i hcond
            intro hd
            apply hcond
            refine ⟨?_, hd⟩
            intro hlen
            exact hr (List.length_eq_zero.mp hlen)
      · split at h
        · exact ih res h m hmem hk hr
        · split at h
          · cases h
          · exact ih res h m hmem hk hr

theorem getModByGo_newest (key : lys_module_m → String) (k : String) :
    ∀ (l : List (Option lys_module_m)) (res : Option lys_module_m),
      (∀ m, getModByGo key k none l res = some m →
        res = some m ∨ (some m ∈ l ∧ key m = k)) ∧
      (∀ m', some m' ∈ l → key m' = k → m'.revs ≠ [] →
        ∃ y, getModByGo key k none l res = some y ∧ y.revs ≠ [] ∧
          strcmpLtB (y.revs.headD "").data (m'.revs.headD "").data = false) ∧
      (∀ x, res = some x → ∃ y, getModByGo key k none l res = some y ∧
        (x.revs ≠ [] → y.revs ≠ [] ∧
          strcmpLtB (y.revs.headD "").data (x.revs.headD "").data = false)) ∧
      (∀ m', some m' ∈ l → key m' = k → (getModByGo key k none l res).isSome = true) := by
  intro l
  induction l with
  | nil =>
    intro res
    refine ⟨fun m h => Or.inl h, fun m' hm => absurd hm (List.not_mem_nil _), ?_, ?_⟩
    · intro x hx
      exact ⟨x, hx, fun hr => ⟨hr, strcmpLtB_irrefl _⟩⟩
    · intro m' hm
      exact absurd hm (List.not_mem_nil _)
  | cons o rest ih =>
    intro res
    cases o with
    | none =>
      obtain ⟨ih1, ih2, ih3, ih4⟩ := ih res
      refine ⟨?_, ?_, ?_, ?_⟩
      · intro m h
        rcases ih1 m h with h' | ⟨hm, hk⟩
        · exact Or.inl h'
        · exact Or.inr ⟨List.mem_cons_of_mem _ hm, hk⟩
      · intro m' hm hk hr
        rcases List.mem_cons.mp hm with heq | hmem
        · cases heq
        · exact ih2 m' hmem hk hr
      · exact ih3
      · intro m' hm hk
        rcases List.mem_cons.mp hm with heq | hmem
        · cases heq
        · exact ih4 m' hmem hk
    | some a =>
      by_cases hka : key a ≠ k
      · obtain ⟨ih1, ih2, ih3, ih4⟩ := ih res
        have hred : getModByGo key k none (some a :: rest) res = getModByGo key k none rest res := by
          simp only [getModByGo, if_pos hka]
        refine ⟨?_, ?_, ?_, ?_⟩
        · intro m h
          rw [hred] at h
          rcases ih1 m h with h' | ⟨hm, hk⟩
          · exact Or.inl h'
          · exact Or.inr ⟨List.mem_cons_of_mem _ hm, hk⟩
        · intro m' hm hk hr
          rcases List.mem_cons.mp hm with heq | hmem
          · injection heq with heqa; subst heqa; exact absurd hk hka
          · rw [hred]; exact ih2 m' hmem hk hr
        · intro x hx
          rw [hred]; exact ih3 x hx
        · intro m' hm hk
          rcases List.mem_cons.mp hm with heq | hmem
          · injection heq with heqa; subst heqa; exact absurd hk hka
          · rw [hred]; exact ih4 m' hmem hk
      · have hkeq : key a = k := not_not.mp hka
        cases res with
        | none =>
          obtain ⟨ih1, ih2, ih3, ih4⟩ := ih (some a)
          have hred : getModByGo key k none (some a :: rest) none
              = getModByGo key k none rest (some a) := by
            simp only [getModByGo, if_neg hka]
          have hself : ∃ y, getModByGo key k none rest (some a) = some y ∧
              (a.revs ≠ [] → y.revs ≠ [] ∧
                strcmpLtB (y.revs.headD "").data (a.revs.headD "").data = false) :=
            ih3 a rfl
          refine ⟨?_, ?_, ?_, ?_⟩
          · intro m h
            rw [hred] at h
            rcases ih1 m h with h' | ⟨hm, hk⟩
            · injection h' with h''
              exact Or.inr ⟨by rw [h'']; exact List.mem_cons_self _ _, by rw [← h'']; exact hkeq⟩
            · exact Or.inr ⟨List.mem_cons_of_mem _ hm, hk⟩
          · intro m' hm hk hr
            rw [hred]
            rcases List.mem_cons.mp hm with heq | hmem
            · injection heq with heqa; subst heqa
              obtain ⟨y, hy, himp⟩ := hself
              obtain ⟨hyr, hyle⟩ := himp hr
              exact ⟨y, hy, hyr, hyle⟩
            · exact ih2 m' hmem hk hr
          · intro x hx; cases hx
          · intro m' hm hk
            rw [hred]
            obtain ⟨y, hy, _⟩ := hself
            rw [hy]; rfl
        | some r =>
          by_cases hlen : a.revs.length = 0
          · obtain ⟨ih1, ih2, ih3, ih4⟩ := ih (some r)
            have hred : getModByGo key k none (some a :: rest) (some r)
                = getModByGo key k none rest (some r) := by
              simp only [getModByGo, if_neg hka, if_pos hlen]
            refine ⟨?_, ?_, ?_, ?_⟩
            · intro m h
              rw [hred] at h
              rcases ih1 m h with h' | ⟨hm, hk⟩
              · exact Or.inl h'
              · exact Or.inr ⟨List.mem_cons_of_mem _ hm, hk⟩
            · intro m' hm hk hr
              rw [hred]
              rcases List.mem_cons.mp hm with heq | hmem
              · injection heq with heqa; subst heqa
                exact absurd (List.length_eq_zero.mp hlen) hr
              · exact ih2 m' hmem hk hr
            · intro x hx; rw [hred]; exact ih3 x hx
            · intro m' hm hk
              rw [hred]
              rcases List.mem_cons.mp hm with heq | hmem
              · obtain ⟨y, hy, _⟩ := ih3 r rfl
                rw [hy]; rfl
              · exact ih4 m' hmem hk
          · by_cases hcmp : r.revs.length ≠ 0 ∧
                strcmpLtB (a.revs.headD "").data (r.revs.headD "").data = true
            · obtain ⟨ih1, ih2, ih3, ih4⟩ := ih (some r)
              have hred : getModByGo key k none (some a :: rest) (some r)
                  = getModByGo key k none rest (some r) := by
                simp only [getModByGo, if_neg hka, if_neg hlen, if_pos hcmp]
              have hrdom := ih3 r rfl
              refine ⟨?_, ?_, ?_, ?_⟩
              · intro m h
                rw [hred] at h
                rcases ih1 m h with h' | ⟨hm, hk⟩
                · exact Or.inl h'
                · exact Or.inr ⟨List.mem_cons_of_mem _ hm, hk⟩
              · intro m' hm hk hr
                rw [hred]
                rcases List.mem_cons.mp hm with heq | hmem
                · injection heq with heqa; subst heqa
                  obtain ⟨y, hy, himp⟩ := hrdom
                  obtain ⟨hyr, hyle⟩ := himp (fun hnil => hcmp.1 (by rw [hnil]; rfl))
                  exact ⟨y, hy, hyr, strcmpLtLeB_trans _ _ _ hcmp.2 hyle⟩
                · exact ih2 m' hmem hk hr
              · intro x hx; rw [hred]; exact ih3 x hx
              · intro m' hm hk
                rw [hred]
                obtain ⟨y, hy, _⟩ := hrdom
                rw [hy]; rfl
            · obtain ⟨ih1, ih2, ih3, ih4⟩ := ih (some a)
              have hred : getModByGo key k none (some a :: rest) (some r)
                  = getModByGo key k none rest (some a) := by
                simp only [getModByGo, if_neg hka, if_neg hlen, if_neg hcmp]
              have hadom := ih3 a rfl
              have hane : a.revs ≠ [] := by
                intro hnil; exact hlen (by rw [hnil]; rfl)
              refine ⟨?_, ?_, ?_, ?_⟩
              · intro m h
                rw [hred] at h
                rcases ih1 m h with h' | ⟨hm, hk⟩
                · injection h' with h''
                  exact Or.inr ⟨by rw [h'']; exact List.mem_cons_self _ _, by rw [← h'']; exact hkeq⟩
                · exact Or.inr ⟨List.mem_cons_of_mem _ hm, hk⟩
              · intro m' hm hk hr
                rw [hred]
                rcases List.mem_cons.mp hm with heq | hmem
                · injection heq with heqa; subst heqa
                  obtain ⟨y, hy, himp⟩ := hadom
                  obtain ⟨hyr, hyle⟩ := himp hr
                  exact ⟨y, hy, hyr, hyle⟩
                · exact ih2 m' hmem hk hr
              · intro x hx
                injection hx with hxr
                subst hxr
                obtain ⟨y, hy, himp⟩ := hadom
                obtain ⟨hyr, hyle⟩ := himp hane
                refine ⟨y, by rw [hred]; exact hy, ?_⟩
                intro hxne
                rcases not_and_or.mp hcmp with hrl | hnlt
                · exact absurd (List.length_eq_zero.mp (not_not.mp hrl)) hxne
                · have hle : strcmpLtB (a.revs.headD "").data (r.revs.headD "").data = false := by
                    cases hb : strcmpLtB (a.revs.headD "").data (r.revs.headD "").data with
                    | false => rfl
                    | true => exact absurd hb hnlt
                  exact ⟨hyr, strcmpLeB_trans _ _ _ hle hyle⟩
              · intro m' hm hk
                rw [hred]
                obtain ⟨y, hy, _⟩ := hadom
                rw [hy]; rfl

/-- C10: `ly_ctx_get_module_by` selection rule.  In exact-revision mode the
result (when non-null) is a listed module whose key field matches and whose
newest revision equals the request, and a null result means no such module
is listed.  In newest-revision mode (`revision = NULL`) the result is a
listed key-matching module; it dominates every listed key-matching module
that has a revision (the result has a revision and its newest revision date
is not `strcmp`-below theirs, so revisioned modules win over revisionless
ones); and whenever any key-matching module is listed the result is
non-null.  `ly_ctx_get_module` and `ly_ctx_get_module_by_ns` are instances
with `key` the name and namespace fields. -/
theorem C10_get_module_selection (list : List (Option lys_module_m)) (key : lys_module_m → String)
    (k rev : String) :
    (∀ m, ly_ctx_get_module_by list key k (some rev) = some m →
       some m ∈ list ∧ key m = k ∧ m.revs ≠ [] ∧ m.revs.headD "" = rev) ∧
    (ly_ctx_get_module_by list key k (some rev) = none →
       ∀ m, some m ∈ list → key m = k → m.revs ≠ [] → m.revs.headD "" ≠ rev) ∧
    (∀ m, ly_ctx_get_module_by list key k none = some m → some m ∈ list ∧ key m = k) ∧
    (∀ m m', ly_ctx_get_module_by list key k none = some m →
       some m' ∈ list → key m' = k → m'.revs ≠ [] →
       m.revs ≠ [] ∧ strcmpLtB (m.revs.headD "").data (m'.revs.headD "").data = false) ∧
    (∀ m', some m' ∈ list → key m' = k →
       (ly_ctx_get_module_by list key k none).isSome = true) := by
  obtain ⟨n1, n2, _n3, n4⟩ := getModByGo_newest key k list none
  refine ⟨?_, ?_, ?_, ?_, ?_⟩
  · intro m h
    rcases getModByGo_rev_sound key k rev list none m h with h' | hgood
    · cases h'
    · exact hgood
  · intro h m hm hk hr
    exact getModByGo_rev_none key k rev list none h m hm hk hr
  · intro m h
    rcases n1 m h with h' | hgood
    · cases h'
    · exact hgood
  · intro m m' h hm hk hr
    obtain ⟨y, hy, hyr, hyle⟩ := n2 m' hm hk hr
    have h2 : getModByGo key k none list none = some m := h
    rw [h2] at hy
    injection hy with hy'
    rw [hy']
    exact ⟨hyr, hyle⟩
  · exact n4

/-- C10 witness: a four-module list with duplicate name `a` (revisionless,
2020, 2021).  Newest-revision lookup returns the 2021 module, which
dominates the 2020 one. -/
theorem C10_get_module_selection_witness :
    (ly_ctx_get_module_by
        [some ⟨"a", "ns:a", [], true, none, [], [], []⟩,
         some ⟨"a", "ns:a", ["2020-01-01"], true, none, [], [], []⟩,
         some ⟨"a", "ns:a", ["2021-05-05"], true, none, [], [], []⟩,
         some ⟨"b", "ns:b", ["2030-01-01"], true, none, [], [], []⟩]
        (fun m => m.name) "a" none
      = some ⟨"a", "ns:a", ["2021-05-05"], true, none, [], [], []⟩ ∧
     some (⟨"a", "ns:a", ["2020-01-01"], true, none, [], [], []⟩ : lys_module_m) ∈
        [some ⟨"a", "ns:a", [], true, none, [], [], []⟩,
         some ⟨"a", "ns:a", ["2020-01-01"], true, none, [], [], []⟩,
         some ⟨"a", "ns:a", ["2021-05-05"], true, none, [], [], []⟩,
         some ⟨"b", "ns:b", ["2030-01-01"], true, none, [], [], []⟩] ∧
     (fun (m : lys_module_m) => m.name) ⟨"a", "ns:a", ["2020-01-01"], true, none, [], [], []⟩ = "a" ∧
     (⟨"a", "ns:a", ["2020-01-01"], true, none, [], [], []⟩ : lys_module_m).revs ≠ []) ∧
    ((⟨"a", "ns:a", ["2021-05-05"], true, none, [], [], []⟩ : lys_module_m).revs ≠ [] ∧
     strcmpLtB
        ((⟨"a", "ns:a", ["2021-05-05"], true, none, [], [], []⟩ : lys_module_m).revs.headD "").data
        ((⟨"a", "ns:a", ["2020-01-01"], true, none, [], [], []⟩ : lys_module_m).revs.headD "").data
       = false) := by
  refine ⟨⟨by decide, by decide, by decide, by decide⟩, ?_⟩
  exact (C10_get_module_selection
      [some ⟨"a", "ns:a", [], true, none, [], [], []⟩,
       some ⟨"a", "ns:a", ["2020-01-01"], true, none, [], [], []⟩,
       some ⟨"a", "ns:a", ["2021-05-05"], true, none, [], [], []⟩,
       some ⟨"b", "ns:b", ["2030-01-01"], true, none, [], [], []⟩]
      (fun m => m.name) "a" "x").2.2.2.1
    ⟨"a", "ns:a", ["2021-05-05"], true, none, [], [], []⟩
    ⟨"a", "ns:a", ["2020-01-01"], true, none, [], [], []⟩
    (by decide) (by decide) (by decide) (by decide)

theorem cntRes_cons (t : UnresTypeS) (l : List UnresTypeS) :
    cntRes (t :: l) = cntRes l + (if t = UnresTypeS.resolvedK then 1 else 0) := by
  simp [cntRes, List.countP_cons]

theorem cntPre_cons (t : UnresTypeS) (l : List UnresTypeS) :
    cntPre (t :: l) = cntPre l + (if isPreKind t then 1 else 0) := by
  simp [cntPre, List.countP_cons]

theorem cntRes_reverse (l : List UnresTypeS) : cntRes l.reverse = cntRes l :=
  List.countP_reverse _ _

theorem cntPre_reverse (l : List UnresTypeS) : cntPre l.reverse = cntPre l :=
  List.countP_reverse _ _

theorem allRes_iff (l : List UnresTypeS) :
    l.all (fun x => decide (x = UnresTypeS.resolvedK)) = true ↔ cntRes l = l.length := by
  rw [List.all_eq_true, cntRes, List.countP_eq_length]

theorem prePassGo_done_spec {σ : Type} (attempt : σ → Nat → σ × Int) :
    ∀ (todo doneRev : List UnresTypeS) (s : σ) (uc rc tot : Nat)
      {t' : List UnresTypeS} {s' : σ} {uc' rc' tot' : Nat},
      prePassGo attempt doneRev todo s uc rc tot = .done t' s' uc' rc' tot' →
      ∃ d, tot' = tot + d ∧ rc' = rc + d ∧ uc' = uc + cntPre todo ∧
        cntRes t' = cntRes doneRev + cntRes todo + d ∧
        cntPre doneRev + cntPre todo = cntPre t' + d ∧
        t'.length = doneRev.length + todo.length := by
  intro todo
  induction todo with
  | nil =>
    intro doneRev s uc rc tot t' s' uc' rc' tot' h
    simp only [prePassGo] at h
    injection h with h1 h2 h3 h4 h5
    subst h1; subst h2; subst h3; subst h4; subst h5
    refine ⟨0, by omega, by omega, ?_, ?_, ?_, ?_⟩
    · have : cntPre ([] : List UnresTypeS) = 0 := rfl
      omega
    · have e1 : cntRes doneRev.reverse = cntRes doneRev := cntRes_reverse doneRev
      have e2 : cntRes ([] : List UnresTypeS) = 0 := rfl
      omega
    · have e1 : cntPre doneRev.reverse = cntPre doneRev := cntPre_reverse doneRev
      have e2 : cntPre ([] : List UnresTypeS) = 0 := rfl
      omega
    · have e1 : doneRev.reverse.length = doneRev.length := List.length_reverse doneRev
      have e2 : ([] : List UnresTypeS).length = 0 := rfl
      omega
  | cons t rest ih =>
    intro doneRev s uc rc tot t' s' uc' rc' tot' h
    simp only [prePassGo] at h
    by_cases hpre : isPreKind t = true
    · rw [if_pos hpre] at h
      have htne : t ≠ UnresTypeS.resolvedK := by
        intro he; rw [he] at hpre; simp [isPreKind] at hpre
      rcases hatt : attempt s doneRev.length with ⟨s1, r1⟩
      rw [hatt] at h
      simp only at h
      by_cases hr0 : r1 = 0
      · rw [if_pos hr0] at h
        obtain ⟨d, hd1, hd2, hd3, hd4, hd5, hd6⟩ := ih _ _ _ _ _ h
        have e1 : cntRes (UnresTypeS.resolvedK :: doneRev) = cntRes doneRev + 1 := by
          simp [cntRes_cons]
        have e2 : cntRes (t :: rest) = cntRes rest := by
          simp [cntRes_cons, htne]
        have e3 : cntPre (UnresTypeS.resolvedK :: doneRev) = cntPre doneRev := by
          simp [cntPre_cons, isPreKind]
        have e4 : cntPre (t :: rest) = cntPre rest + 1 := by
          simp [cntPre_cons, hpre]
        have e5 : (UnresTypeS.resolvedK :: doneRev).length = doneRev.length + 1 := rfl
        have e6 : (t :: rest).length = rest.length + 1 := rfl
        exact ⟨d + 1, by omega, by omega, by omega, by omega, by omega, by omega⟩
      · rw [if_neg hr0] at h
        by_cases hr1 : r1 = -1
        · rw [if_pos hr1] at h
          cases h
        · rw [if_neg hr1] at h
          obtain ⟨d, hd1, hd2, hd3, hd4, hd5, hd6⟩ := ih _ _ _ _ _ h
          have e1 : cntRes (t :: doneRev) = cntRes doneRev := by
            simp [cntRes_cons, htne]
          have e2 : cntRes (t :: rest) = cntRes rest := by
            simp [cntRes_cons, htne]
          have e3 : cntPre (t :: doneRev) = cntPre doneRev + 1 := by
            simp [cntPre_cons, hpre]
          have e4 : cntPre (t :: rest) = cntPre rest + 1 := by
            simp [cntPre_cons, hpre]
          have e5 : (t :: doneRev).length = doneRev.length + 1 := rfl
          have e6 : (t :: rest).length = rest.length + 1 := rfl
          exact ⟨d, by omega, by omega, by omega, by omega, by omega, by omega⟩
    · rw [if_neg hpre] at h
      obtain ⟨d, hd1, hd2, hd3, hd4, hd5, hd6⟩ := ih _ _ _ _ _ h
      have e1 : cntRes (t :: doneRev)
          = cntRes doneRev + (if t = UnresTypeS.resolvedK then 1 else 0) :=
        cntRes_cons t doneRev
      have e2 : cntRes (t :: rest)
          = cntRes rest + (if t = UnresTypeS.resolvedK then 1 else 0) :=
        cntRes_cons t rest
      have e3 : cntPre (t :: doneRev) = cntPre doneRev := by
        simp [cntPre_cons, hpre]
      have e4 : cntPre (t :: rest) = cntPre rest := by
        simp [cntPre_cons, hpre]
      have e5 : (t :: doneRev).length = doneRev.length + 1 := rfl
      have e6 : (t :: rest).length = rest.length + 1 := rfl
      exact ⟨d, by omega, by omega, by omega, by omega, by omega, by omega⟩

theorem prePassGo_err_spec {σ : Type} (attempt : σ → Nat → σ × Int) :
    ∀ (todo doneRev : List UnresTypeS) (s : σ) (uc rc tot : Nat)
      {t' : List UnresTypeS} {s' : σ} {tot' : Nat},
      prePassGo attempt doneRev todo s uc rc tot = .err t' s' tot' →
      ∃ x, x ∈ t' ∧ x ≠ UnresTypeS.resolvedK := by
  intro todo
  induction todo with
  | nil =>
    intro doneRev s uc rc tot t' s' tot' h
    simp only [prePassGo] at h
    cases h
  | cons t rest ih =>
    intro doneRev s uc rc tot t' s' tot' h
    simp only [prePassGo] at h
    by_cases hpre : isPreKind t = true
    · rw [if_pos hpre] at h
      have htne : t ≠ UnresTypeS.resolvedK := by
        intro he; rw [he] at hpre; simp [isPreKind] at hpre
      rcases hatt : attempt s doneRev.length with ⟨s1, r1⟩
      rw [hatt] at h
      simp only at h
      by_cases hr0 : r1 = 0
      · rw [if_pos hr0] at h
        exact ih _ _ _ _ _ h
      · rw [if_neg hr0] at h
        by_cases hr1 : r1 = -1
        · rw [if_pos hr1] at h
          injection h with h1 h2 h3
          refine ⟨t, ?_, htne⟩
          rw [← h1]
          exact List.mem_append.mpr (Or.inr (List.mem_cons_self _ _))
        · rw [if_neg hr1] at h
          exact ih _ _ _ _ _ h
    · rw [if_neg hpre] at h
      exact ih _ _ _ _ _ h

theorem genPassGo_done_spec {σ : Type} (attempt : σ → Nat → σ × Int) :
    ∀ (todo doneRev : List UnresTypeS) (s : σ) (tot : Nat)
      {t' : List UnresTypeS} {s' : σ} {a b tot' : Nat},
      genPassGo attempt doneRev todo s tot = .done t' s' a b tot' →
      ∃ d, tot' = tot + d ∧ cntRes t' = cntRes doneRev + cntRes todo + d ∧
        t'.length = doneRev.length + todo.length := by
  intro todo
  induction todo with
  | nil =>
    intro doneRev s tot t' s' a b tot' h
    simp only [genPassGo] at h
    injection h with h1 h2 h3 h4 h5
    subst h1; subst h2; subst h5
    refine ⟨0, by omega, ?_, ?_⟩
    · have e1 : cntRes doneRev.reverse = cntRes doneRev := cntRes_reverse doneRev
      have e2 : cntRes ([] : List UnresTypeS) = 0 := rfl
      omega
    · have e1 : doneRev.reverse.length = doneRev.length := List.length_reverse doneRev
      have e2 : ([] : List UnresTypeS).length = 0 := rfl
      omega
  | cons t rest ih =>
    intro doneRev s tot t' s' a b tot' h
    simp only [genPassGo] at h
    by_cases hres : t = UnresTypeS.resolvedK
    · rw [if_pos hres] at h
      obtain ⟨d, hd1, hd2, hd3⟩ := ih _ _ _ h
      have e1 : cntRes (t :: doneRev) = cntRes doneRev + 1 := by
        simp [cntRes_cons, hres]
      have e2 : cntRes (t :: rest) = cntRes rest + 1 := by
        simp [cntRes_cons, hres]
      have e5 : (t :: doneRev).length = doneRev.length + 1 := rfl
      have e6 : (t :: rest).length = rest.length + 1 := rfl
      exact ⟨d, by omega, by omega, by omega⟩
    · rw [if_neg hres] at h
      rcases hatt : attempt s doneRev.length with ⟨s1, r1⟩
      rw [hatt] at h
      simp only at h
      by_cases hr0 : r1 = 0
      · rw [if_pos hr0] at h
        obtain ⟨d, hd1, hd2, hd3⟩ := ih _ _ _ h
        have e1 : cntRes (UnresTypeS.resolvedK :: doneRev) = cntRes doneRev + 1 := by
          simp [cntRes_cons]
        have e2 : cntRes (t :: rest) = cntRes rest := by
          simp [cntRes_cons, hres]
        have e5 : (UnresTypeS.resolvedK :: doneRev).length = doneRev.length + 1 := rfl
        have e6 : (t :: rest).length = rest.length + 1 := rfl
        exact ⟨d + 1, by omega, by omega, by omega⟩
      · rw [if_neg hr0] at h
        by_cases hr1 : r1 = -1
        · rw [if_pos hr1] at h
          cases h
        · rw [if_neg hr1] at h
          obtain ⟨d, hd1, hd2, hd3⟩ := ih _ _ _ h
          have e1 : cntRes (t :: doneRev) = cntRes doneRev := by
            simp [cntRes_cons, hres]
          have e2 : cntRes (t :: rest) = cntRes rest := by
            simp [cntRes_cons, hres]
          have e5 : (t :: doneRev).length = doneRev.length + 1 := rfl
          have e6 : (t :: rest).length = rest.length + 1 := rfl
          exact ⟨d, by omega, by omega, by omega⟩

theorem genPassGo_err_spec {σ : Type} (attempt : σ → Nat → σ × Int) :
    ∀ (todo doneRev : List UnresTypeS) (s : σ) (tot : Nat)
      {t' : List UnresTypeS} {s' : σ} {tot' : Nat},
      genPassGo attempt doneRev todo s tot = .err t' s' tot' →
      ∃ x, x ∈ t' ∧ x ≠ UnresTypeS.resolvedK := by
  intro todo
  induction todo with
  | nil =>
    intro doneRev s tot t' s' tot' h
    simp only [genPassGo] at h
    cases h
  | cons t rest ih =>
    intro doneRev s tot t' s' tot' h
    simp only [genPassGo] at h
    by_cases hres : t = UnresTypeS.resolvedK
    · rw [if_pos hres] at h
      exact ih _ _ _ h
    · rw [if_neg hres] at h
      rcases hatt : attempt s doneRev.length with ⟨s1, r1⟩
      rw [hatt] at h
      simp only at h
      by_cases hr0 : r1 = 0
      · rw [if_pos hr0] at h
        exact ih _ _ _ h
      · rw [if_neg hr0] at h
        by_cases hr1 : r1 = -1
        · rw [if_pos hr1] at h
          injection h with h1 h2 h3
          refine ⟨t, ?_, hres⟩
          rw [← h1]
          exact List.mem_append.mpr (Or.inr (List.mem_cons_self _ _))
        · rw [if_neg hr1] at h
          exact ih _ _ _ h

theorem preLoop_spec {σ : Type} (attempt : σ → Nat → σ × Int) :
    ∀ (fuel : Nat) (types : List UnresTypeS) (s : σ) (tot : Nat),
      cntPre types < fuel →
      (∀ t s1 tot1, preLoop attempt fuel types s tot ≠ .fuelOut t s1 tot1) ∧
      (∀ t s1 uc rc tot1, preLoop attempt fuel types s tot = .finished t s1 uc rc tot1 →
        uc = cntPre t + rc ∧
        ∃ d, tot1 = tot + d ∧ cntRes t = cntRes types + d ∧ t.length = types.length) ∧
      (∀ t s1 tot1, preLoop attempt fuel types s tot = .errStop t s1 tot1 →
        ∃ x, x ∈ t ∧ x ≠ UnresTypeS.resolvedK) := by
  intro fuel
  induction fuel with
  | zero =>
    intro types s tot hf
    exact absurd hf (Nat.not_lt_zero _)
  | succ fuel ih =>
    intro types s tot hf
    cases hp : prePassGo attempt [] types s 0 0 tot with
    | err t1 s1 tot1 =>
      have hred : preLoop attempt (fuel + 1) types s tot = .errStop t1 s1 tot1 := by
        simp only [preLoop, hp]
      rw [hred]
      refine ⟨?_, ?_, ?_⟩
      · intro t s2 tot2 hcontra; cases hcontra
      · intro t s2 uc rc tot2 hcontra; cases hcontra
      · intro t s2 tot2 heq
        injection heq with h1 h2 h3
        subst h1
        exact prePassGo_err_spec attempt _ _ _ _ _ _ hp
    | done t1 s1 uc1 rc1 tot1 =>
      obtain ⟨d1, hd1, hd2, hd3, hd4, hd5, hd6⟩ := prePassGo_done_spec attempt _ _ _ _ _ _ hp
      have e1 : cntRes ([] : List UnresTypeS) = 0 := rfl
      have e2 : cntPre ([] : List UnresTypeS) = 0 := rfl
      have e3 : ([] : List UnresTypeS).length = 0 := rfl
      by_cases hloop : rc1 ≠ 0 ∧ rc1 < uc1
      · have hred : preLoop attempt (fuel + 1) types s tot
            = preLoop attempt fuel t1 s1 tot1 := by
          simp only [preLoop, hp, if_pos hloop]
        rw [hred]
        have hfuel : cntPre t1 < fuel := by omega
        obtain ⟨ihf, ihfin, iherr⟩ := ih t1 s1 tot1 hfuel
        refine ⟨ihf, ?_, iherr⟩
        intro t s2 uc rc tot2 heq
        obtain ⟨huc, d2, he1, he2, he3⟩ := ihfin t s2 uc rc tot2 heq
        exact ⟨huc, d1 + d2, by omega, by omega, by omega⟩
      · have hred : preLoop attempt (fuel + 1) types s tot
            = .finished t1 s1 uc1 rc1 tot1 := by
          simp only [preLoop, hp, if_neg hloop]
        rw [hred]
        refine ⟨?_, ?_, ?_⟩
        · intro t s2 tot2 hcontra; cases hcontra
        · intro t s2 uc rc tot2 heq
          injection heq with h1 h2 h3 h4 h5
          subst h1; subst h3; subst h4; subst h5
          exact ⟨by omega, d1, by omega, by omega, by omega⟩
        · intro t s2 tot2 hcontra; cases hcontra

/-- C6: termination and return discipline of the `resolve_unres_schema`
worklist driver, over an abstract terminating per-item attempt and a
worklist with no pre-resolved entries.  The driver always returns 0 or
-1 (in particular the pre-phase `do…while` loop terminates: each repeat
requires the previous pass to have resolved at least one of its
attempted Uses/TypeDer items, which strictly shrinks the pre-phase item
count); it returns 0 exactly when every registered item became
resolved; the final print-the-errors diagnostics pass runs only on the
-1 path that is reached after the general phase, with diagnostics
visible at exit; and on the pre-phase-stall -1 path the function exits
with no final pass and with diagnostics still hidden. -/
theorem C6_unres_schema_driver {σ : Type} (attempt : σ → Nat → σ × Int)
    (types0 : List UnresTypeS) (s0 : σ)
    (hres : UnresTypeS.resolvedK ∉ types0) :
    ((resolve_unres_schema attempt types0 s0).rc = 0 ∨
      (resolve_unres_schema attempt types0 s0).rc = -1) ∧
    ((resolve_unres_schema attempt types0 s0).rc = 0 ↔
      (resolve_unres_schema attempt types0 s0).types.all
        (fun x => decide (x = UnresTypeS.resolvedK)) = true) ∧
    ((resolve_unres_schema attempt types0 s0).ranFinalDiagPass = true →
      (resolve_unres_schema attempt types0 s0).rc = -1 ∧
      (resolve_unres_schema attempt types0 s0).vlogHiddenAtExit = false) ∧
    ((resolve_unres_schema attempt types0 s0).vlogHiddenAtExit = true →
      (resolve_unres_schema attempt types0 s0).rc = -1 ∧
      (resolve_unres_schema attempt types0 s0).ranFinalDiagPass = false) := by
  have hcnt0 : cntRes types0 = 0 := by
    rw [cntRes, List.countP_eq_zero]
    intro a ha
    simp only [decide_eq_true_eq]
    intro heq
    rw [heq] at ha
    exact hres ha
  obtain ⟨hfo, hfin, herrS⟩ :=
    preLoop_spec attempt (types0.countP (fun t => isPreKind t) + 1) types0 s0 0
      (Nat.lt_succ_self _)
  cases hpl : preLoop attempt (types0.countP (fun t => isPreKind t) + 1) types0 s0 0 with
  | fuelOut t1 s1 tot1 =>
    exact absurd hpl (hfo _ _ _)
  | errStop t1 s1 tot1 =>
    have hred : resolve_unres_schema attempt types0 s0 = ⟨-1, t1, s1, false, false⟩ := by
      simp only [resolve_unres_schema, hpl]
    rw [hred]
    obtain ⟨x, hx, hxne⟩ := herrS _ _ _ hpl
    refine ⟨Or.inr rfl, ?_, ?_, ?_⟩
    · refine iff_of_false (by simp) ?_
      intro hall
      have := List.all_eq_true.mp hall x hx
      simp only [decide_eq_true_eq] at this
      exact hxne this
    · intro hcontra; exact absurd hcontra (by simp)
    · intro hcontra; exact absurd hcontra (by simp)
  | finished t1 s1 uc1 rc1 tot1 =>
    obtain ⟨huc, d1, htot1, hcnt1, hlen1⟩ := hfin _ _ _ _ _ hpl
    by_cases hstall : rc1 < uc1
    · have hred : resolve_unres_schema attempt types0 s0 = ⟨-1, t1, s1, false, true⟩ := by
        simp only [resolve_unres_schema, hpl, if_pos hstall]
      rw [hred]
      have hpos : 0 < cntPre t1 := by omega
      rw [cntPre] at hpos
      obtain ⟨x, hx, hxp⟩ := List.countP_pos_iff.mp hpos
      have hxne : x ≠ UnresTypeS.resolvedK := by
        intro he; rw [he] at hxp; simp [isPreKind] at hxp
      refine ⟨Or.inr rfl, ?_, ?_, ?_⟩
      · refine iff_of_false (by simp) ?_
        intro hall
        have := List.all_eq_true.mp hall x hx
        simp only [decide_eq_true_eq] at this
        exact hxne this
      · intro hcontra; exact absurd hcontra (by simp)
      · intro _; exact ⟨rfl, rfl⟩
    · cases hgp : genPassGo attempt [] t1 s1 tot1 with
      | err t2 s2 tot2 =>
        have hred : resolve_unres_schema attempt types0 s0 = ⟨-1, t2, s2, false, false⟩ := by
          simp only [resolve_unres_schema, hpl, if_neg hstall, hgp]
        rw [hred]
        obtain ⟨x, hx, hxne⟩ := genPassGo_err_spec attempt _ _ _ _ hgp
        refine ⟨Or.inr rfl, ?_, ?_, ?_⟩
        · refine iff_of_false (by simp) ?_
          intro hall
          have := List.all_eq_true.mp hall x hx
          simp only [decide_eq_true_eq] at this
          exact hxne this
        · intro hcontra; exact absurd hcontra (by simp)
        · intro hcontra; exact absurd hcontra (by simp)
      | done t2 s2 a2 b2 tot2 =>
        obtain ⟨d2, htot2, hcnt2, hlen2⟩ := genPassGo_done_spec attempt _ _ _ _ hgp
        have e1 : cntRes ([] : List UnresTypeS) = 0 := rfl
        have e3 : ([] : List UnresTypeS).length = 0 := rfl
        have hkey : tot2 = cntRes t2 := by omega
        have hle : cntRes t2 ≤ t2.length := by
          rw [cntRes]; exact List.countP_le_length _
        by_cases hfail : tot2 < t2.length
        · have hred : resolve_unres_schema attempt types0 s0
              = ⟨-1, t2, finalPassGo attempt [] t2 s2, true, false⟩ := by
            simp only [resolve_unres_schema, hpl, if_neg hstall, hgp, if_pos hfail]
          rw [hred]
          refine ⟨Or.inr rfl, ?_, ?_, ?_⟩
          · refine iff_of_false (by simp) ?_
            intro hall
            have := (allRes_iff t2).mp hall
            omega
          · intro _; exact ⟨rfl, rfl⟩
          · intro hcontra; exact absurd hcontra (by simp)
        · have hred : resolve_unres_schema attempt types0 s0 = ⟨0, t2, s2, false, false⟩ := by
            simp only [resolve_unres_schema, hpl, if_neg hstall, hgp, if_neg hfail]
          rw [hred]
          refine ⟨Or.inl rfl, ?_, ?_, ?_⟩
          · exact iff_of_true rfl ((allRes_iff t2).mpr (by omega))
          · intro hcontra; exact absurd hcontra (by simp)
          · intro hcontra; exact absurd hcontra (by simp)

/-- C6 witness: a two-item worklist (one Uses item, one general item)
over an attempt that resolves everything at once; the driver succeeds
with every item resolved and no diagnostics pass. -/
theorem C6_unres_schema_driver_witness :
    (UnresTypeS.resolvedK ∉ ([UnresTypeS.usesK, UnresTypeS.otherK] : List UnresTypeS)) ∧
    (((resolve_unres_schema (fun (s : Nat) (_ : Nat) => (s, (0 : Int)))
        [UnresTypeS.usesK, UnresTypeS.otherK] 0).rc = 0 ∨
      (resolve_unres_schema (fun (s : Nat) (_ : Nat) => (s, (0 : Int)))
        [UnresTypeS.usesK, UnresTypeS.otherK] 0).rc = -1) ∧
    ((resolve_unres_schema (fun (s : Nat) (_ : Nat) => (s, (0 : Int)))
        [UnresTypeS.usesK, UnresTypeS.otherK] 0).rc = 0 ↔
      (resolve_unres_schema (fun (s : Nat) (_ : Nat) => (s, (0 : Int)))
        [UnresTypeS.usesK, UnresTypeS.otherK] 0).types.all
        (fun x => decide (x = UnresTypeS.resolvedK)) = true) ∧
    ((resolve_unres_schema (fun (s : Nat) (_ : Nat) => (s, (0 : Int)))
        [UnresTypeS.usesK, UnresTypeS.otherK] 0).ranFinalDiagPass = true →
      (resolve_unres_schema (fun (s : Nat) (_ : Nat) => (s, (0 : Int)))
        [UnresTypeS.usesK, UnresTypeS.otherK] 0).rc = -1 ∧
      (resolve_unres_schema (fun (s : Nat) (_ : Nat) => (s, (0 : Int)))
        [UnresTypeS.usesK, UnresTypeS.otherK] 0).vlogHiddenAtExit = false) ∧
    ((resolve_unres_schema (fun (s : Nat) (_ : Nat) => (s, (0 : Int)))
        [UnresTypeS.usesK, UnresTypeS.otherK] 0).vlogHiddenAtExit = true →
      (resolve_unres_schema (fun (s : Nat) (_ : Nat) => (s, (0 : Int)))
        [UnresTypeS.usesK, UnresTypeS.otherK] 0).rc = -1 ∧
      (resolve_unres_schema (fun (s : Nat) (_ : Nat) => (s, (0 : Int)))
        [UnresTypeS.usesK, UnresTypeS.otherK] 0).ranFinalDiagPass = false)) :=
  ⟨by decide,
   C6_unres_schema_driver (fun (s : Nat) (_ : Nat) => (s, (0 : Int)))
     [UnresTypeS.usesK, UnresTypeS.otherK] 0 (by decide)⟩

theorem siblingcheck_nil_code (env : List (Str × Nat)) (sib : lys_node) (shorthand : Int)
    (module : Nat) (modName : Option Str) (parentNT : Option Nat) :
    (schema_nodeid_siblingcheck env sib shorthand [] module modName parentNT).code = 0 ∨
    (schema_nodeid_siblingcheck env sib shorthand [] module modName parentNT).code = 1 ∨
    (schema_nodeid_siblingcheck env sib shorthand [] module modName parentNT).code = -1 := by
  rcases himp : lys_get_import_module env module modName with _ | pm
  · have hred : schema_nodeid_siblingcheck env sib shorthand [] module modName parentNT
        = ⟨-1, shorthand, none⟩ := by
      simp only [schema_nodeid_siblingcheck, himp]
    rw [hred]
    right; right; rfl
  · by_cases hpm : pm ≠ sib.module
    · have hred : schema_nodeid_siblingcheck env sib shorthand [] module modName parentNT
          = ⟨1, shorthand, none⟩ := by
        simp only [schema_nodeid_siblingcheck, himp, if_pos hpm]
      rw [hred]
      right; left; rfl
    · have hred : schema_nodeid_siblingcheck env sib shorthand [] module modName parentNT
          = (if (if (parentNT = some LYS_CHOICE ∧ sib.nodetype ≠ LYS_CASE) ∧ shorthand ≠ -1
                then (if shorthand = 0 then 1 else 0) else shorthand) = 1
             then ⟨1, if (parentNT = some LYS_CHOICE ∧ sib.nodetype ≠ LYS_CASE) ∧ shorthand ≠ -1
                then (if shorthand = 0 then 1 else 0) else shorthand, none⟩
             else ⟨0, if (parentNT = some LYS_CHOICE ∧ sib.nodetype ≠ LYS_CASE) ∧ shorthand ≠ -1
                then (if shorthand = 0 then 1 else 0) else shorthand, none⟩) := by
        simp only [schema_nodeid_siblingcheck, himp, if_neg hpm, List.isEmpty_nil, if_true]
      rw [hred]
      split
      · split
        · right; left; rfl
        · left; rfl
      · split
        · right; left; rfl
        · left; rfl

theorem scanSibs_nil_no_descend (env : List (Str × Nat)) (module : Nat) (modName : Option Str)
    (segName : Str) (parentNT : Option Nat) (acceptMask : Option Nat) :
    ∀ (sibs : List lys_node) (shorthand : Int) (n : lys_node) (sh2 : Int)
      (ns : Option (List lys_node × Option Nat)),
      scanSibs env module modName segName [] parentNT acceptMask shorthand sibs
        ≠ .descend n sh2 ns := by
  intro sibs
  induction sibs with
  | nil =>
    intro sh n sh2 ns h
    simp only [scanSibs] at h
    cases h
  | cons sib rest ih =>
    intro sh n sh2 ns h
    simp only [scanSibs] at h
    by_cases hname : sib.name = segName
    · rw [if_pos hname] at h
      rcases siblingcheck_nil_code env sib sh module modName parentNT with hc | hc | hc
      · rw [if_pos hc] at h
        cases acceptMask with
        | none =>
          have h' : SibScan.found sib
              (schema_nodeid_siblingcheck env sib sh [] module modName parentNT).shorthand
              = SibScan.descend n sh2 ns := h
          cases h'
        | some mask =>
          have h' : (if (sib.nodetype &&& mask) ≠ 0 then
                SibScan.found sib
                  (schema_nodeid_siblingcheck env sib sh [] module modName
                    parentNT).shorthand
              else scanSibs env module modName segName [] parentNT (some mask)
                (schema_nodeid_siblingcheck env sib sh [] module modName
                  parentNT).shorthand rest)
              = SibScan.descend n sh2 ns := h
          split at h'
          · cases h'
          · exact ih _ _ _ _ h'

      · rw [if_neg (by rw [hc]; decide), if_pos hc] at h
        exact ih _ _ _ _ h
      · rw [if_neg (by rw [hc]; decide), if_neg (by rw [hc]; decide),
          if_neg (by rw [hc]; decide)] at h
        cases h
    · rw [if_neg hname] at h
      exact ih _ _ _ _ h

theorem nodeidLoop_nil_nonpos (env : List (Str × Nat)) (module : Nat) (withInOut : Bool)
    (acceptMask : Option Nat) (noInnerlist : Bool) :
    ∀ (fuel : Nat) (consumed : Nat) (isRel shorthand : Int) (modName : Option Str)
      (segName : Str) (sibs : List lys_node) (parentNT : Option Nat),
      (nodeidLoop env module withInOut acceptMask noInnerlist fuel [] consumed isRel
          shorthand modName segName sibs parentNT).1 ≤ 0 := by
  intro fuel
  cases fuel with
  | zero =>
    intro consumed isRel sh modName segName sibs parentNT
    simp only [nodeidLoop]
    decide
  | succ fuel =>
    intro consumed isRel sh modName segName sibs parentNT
    cases hscan : scanSibs env module modName segName [] parentNT acceptMask sh
        (getnextList withInOut sibs) with
    | found n sh2 =>
      have hred : nodeidLoop env module withInOut acceptMask noInnerlist (fuel + 1) []
          consumed isRel sh modName segName sibs parentNT = (0, some n) := by
        simp only [nodeidLoop, hscan]
      rw [hred]
    | err =>
      have hred : nodeidLoop env module withInOut acceptMask noInnerlist (fuel + 1) []
          consumed isRel sh modName segName sibs parentNT = (-1, none) := by
        simp only [nodeidLoop, hscan]
      rw [hred]
      decide
    | noMatch sh2 =>
      have hred : nodeidLoop env module withInOut acceptMask noInnerlist (fuel + 1) []
          consumed isRel sh modName segName sibs parentNT = (0, none) := by
        simp only [nodeidLoop, hscan]
      rw [hred]
    | descend n sh2 ns =>
      exact absurd hscan (scanSibs_nil_no_descend env module modName segName parentNT
        acceptMask _ _ _ _ _)

theorem nodeidLoop_discipline (env : List (Str × Nat)) (module : Nat) (withInOut : Bool)
    (acceptMask : Option Nat) (noInnerlist : Bool) :
    ∀ (fuel : Nat) (id : Str) (consumed : Nat) (isRel shorthand : Int)
      (modName : Option Str) (segName : Str) (sibs : List lys_node) (parentNT : Option Nat),
      (nodeidLoop env module withInOut acceptMask noInnerlist fuel id consumed isRel
          shorthand modName segName sibs parentNT).1 = 0 ∨
      (nodeidLoop env module withInOut acceptMask noInnerlist fuel id consumed isRel
          shorthand modName segName sibs parentNT).1 = -1 ∨
      ((nodeidLoop env module withInOut acceptMask noInnerlist fuel id consumed isRel
          shorthand modName segName sibs parentNT).1 = -2 ∧ noInnerlist = true) ∨
      (0 < (nodeidLoop env module withInOut acceptMask noInnerlist fuel id consumed isRel
          shorthand modName segName sibs parentNT).1 ∧
        nodeidScanFail id isRel consumed
          = some (nodeidLoop env module withInOut acceptMask noInnerlist fuel id consumed
              isRel shorthand modName segName sibs parentNT).1) := by
  intro fuel
  induction fuel with
  | zero =>
    intro id consumed isRel sh modName segName sibs parentNT
    right; left; rfl
  | succ fuel ih =>
    intro id consumed isRel sh modName segName sibs parentNT
    cases hscan : scanSibs env module modName segName id parentNT acceptMask sh
        (getnextList withInOut sibs) with
    | found n sh2 =>
      have hred : nodeidLoop env module withInOut acceptMask noInnerlist (fuel + 1) id
          consumed isRel sh modName segName sibs parentNT = (0, some n) := by
        simp only [nodeidLoop, hscan]
      rw [hred]
      left; rfl
    | err =>
      have hred : nodeidLoop env module withInOut acceptMask noInnerlist (fuel + 1) id
          consumed isRel sh modName segName sibs parentNT = (-1, none) := by
        simp only [nodeidLoop, hscan]
      rw [hred]
      right; left; rfl
    | noMatch sh2 =>
      have hred : nodeidLoop env module withInOut acceptMask noInnerlist (fuel + 1) id
          consumed isRel sh modName segName sibs parentNT = (0, none) := by
        simp only [nodeidLoop, hscan]
      rw [hred]
      left; rfl
    | descend n sh2 ns =>
      by_cases hlist : noInnerlist ∧ n.nodetype = LYS_LIST
      · have hred : nodeidLoop env module withInOut acceptMask noInnerlist (fuel + 1) id
            consumed isRel sh modName segName sibs parentNT = (-2, none) := by
          simp only [nodeidLoop, hscan, if_pos hlist]
        rw [hred]
        right; right; left
        exact ⟨rfl, hlist.1⟩
      · by_cases hret : (parse_schema_nodeid id isRel).ret < 1
        · have hred : nodeidLoop env module withInOut acceptMask noInnerlist (fuel + 1) id
              consumed isRel sh modName segName sibs parentNT
              = ((consumed : Int) - (parse_schema_nodeid id isRel).ret + 1, none) := by
            simp only [nodeidLoop, hscan, if_neg hlist, if_pos hret]
          rw [hred]
          right; right; right
          refine ⟨by omega, ?_⟩
          rw [nodeidScanFail]
          rw [dif_pos hret]
        · cases ns with
          | none =>
            have hred : nodeidLoop env module withInOut acceptMask noInnerlist (fuel + 1) id
                consumed isRel sh modName segName sibs parentNT
                = nodeidLoop env module withInOut acceptMask noInnerlist fuel
                    (id.drop (parse_schema_nodeid id isRel).ret.toNat)
                    (consumed + (parse_schema_nodeid id isRel).ret.toNat)
                    (parse_schema_nodeid id isRel).is_relative sh2
                    (parse_schema_nodeid id isRel).mod_name
                    ((parse_schema_nodeid id isRel).name.take
                      (parse_schema_nodeid id isRel).nam_len) sibs parentNT := by
              simp only [nodeidLoop, hscan, if_neg hlist, if_neg hret]
            rw [hred]
            rcases ih (id.drop (parse_schema_nodeid id isRel).ret.toNat)
                (consumed + (parse_schema_nodeid id isRel).ret.toNat)
                (parse_schema_nodeid id isRel).is_relative sh2
                (parse_schema_nodeid id isRel).mod_name
                ((parse_schema_nodeid id isRel).name.take
                  (parse_schema_nodeid id isRel).nam_len) sibs parentNT
              with h0 | h1 | h2 | ⟨hpos, hsf⟩
            · exact Or.inl h0
            · exact Or.inr (Or.inl h1)
            · exact Or.inr (Or.inr (Or.inl h2))
            · by_cases hemp : (id.drop (parse_schema_nodeid id isRel).ret.toNat).isEmpty = true
              · have hE : id.drop (parse_schema_nodeid id isRel).ret.toNat = [] :=
                  List.isEmpty_iff.mp hemp
                rw [hE] at hpos
                have hnp := nodeidLoop_nil_nonpos env module withInOut acceptMask noInnerlist
                  fuel (consumed + (parse_schema_nodeid id isRel).ret.toNat)
                  (parse_schema_nodeid id isRel).is_relative sh2
                  (parse_schema_nodeid id isRel).mod_name
                  ((parse_schema_nodeid id isRel).name.take
                    (parse_schema_nodeid id isRel).nam_len) sibs parentNT
                omega
              · right; right; right
                refine ⟨hpos, ?_⟩
                rw [nodeidScanFail]
                rw [dif_neg hret, if_neg hemp]
                exact hsf
          | some st =>
            rcases st with ⟨sl, pn⟩
            have hred : nodeidLoop env module withInOut acceptMask noInnerlist (fuel + 1) id
                consumed isRel sh modName segName sibs parentNT
                = nodeidLoop env module withInOut acceptMask noInnerlist fuel
                    (id.drop (parse_schema_nodeid id isRel).ret.toNat)
                    (consumed + (parse_schema_nodeid id isRel).ret.toNat)
                    (parse_schema_nodeid id isRel).is_relative sh2
                    (parse_schema_nodeid id isRel).mod_name
                    ((parse_schema_nodeid id isRel).name.take
                      (parse_schema_nodeid id isRel).nam_len) sl pn := by
              simp only [nodeidLoop, hscan, if_neg hlist, if_neg hret]
            rw [hred]
            rcases ih (id.drop (parse_schema_nodeid id isRel).ret.toNat)
                (consumed + (parse_schema_nodeid id isRel).ret.toNat)
                (parse_schema_nodeid id isRel).is_relative sh2
                (parse_schema_nodeid id isRel).mod_name
                ((parse_schema_nodeid id isRel).name.take
                  (parse_schema_nodeid id isRel).nam_len) sl pn
              with h0 | h1 | h2 | ⟨hpos, hsf⟩
            · exact Or.inl h0
            · exact Or.inr (Or.inl h1)
            · exact Or.inr (Or.inr (Or.inl h2))
            · by_cases hemp : (id.drop (parse_schema_nodeid id isRel).ret.toNat).isEmpty = true
              · have hE : id.drop (parse_schema_nodeid id isRel).ret.toNat = [] :=
                  List.isEmpty_iff.mp hemp
                rw [hE] at hpos
                have hnp := nodeidLoop_nil_nonpos env module withInOut acceptMask noInnerlist
                  fuel (consumed + (parse_schema_nodeid id isRel).ret.toNat)
                  (parse_schema_nodeid id isRel).is_relative sh2
                  (parse_schema_nodeid id isRel).mod_name
                  ((parse_schema_nodeid id isRel).name.take
                    (parse_schema_nodeid id isRel).nam_len) sl pn
                omega
              · right; right; right
                refine ⟨hpos, ?_⟩
                rw [nodeidScanFail]
                rw [dif_neg hret, if_neg hemp]
                exact hsf

theorem nodeidEntry_discipline (env : List (Str × Nat)) (module : Nat) (withInOut : Bool)
    (acceptMask : Option Nat) (noInnerlist : Bool) (nodeid : Str) (fuel : Nat)
    (shorthand : Int) (sibs : List lys_node) (parentNT : Option Nat)
    (hret : ¬ (parse_schema_nodeid nodeid (-1)).ret < 1) :
    (nodeidLoop env module withInOut acceptMask noInnerlist fuel
        (nodeid.drop (parse_schema_nodeid nodeid (-1)).ret.toNat)
        (parse_schema_nodeid nodeid (-1)).ret.toNat
        (parse_schema_nodeid nodeid (-1)).is_relative shorthand
        (parse_schema_nodeid nodeid (-1)).mod_name
        ((parse_schema_nodeid nodeid (-1)).name.take (parse_schema_nodeid nodeid (-1)).nam_len)
        sibs parentNT).1 = 0 ∨
    (nodeidLoop env module withInOut acceptMask noInnerlist fuel
        (nodeid.drop (parse_schema_nodeid nodeid (-1)).ret.toNat)
        (parse_schema_nodeid nodeid (-1)).ret.toNat
        (parse_schema_nodeid nodeid (-1)).is_relative shorthand
        (parse_schema_nodeid nodeid (-1)).mod_name
        ((parse_schema_nodeid nodeid (-1)).name.take (parse_schema_nodeid nodeid (-1)).nam_len)
        sibs parentNT).1 = -1 ∨
    ((nodeidLoop env module withInOut acceptMask noInnerlist fuel
        (nodeid.drop (parse_schema_nodeid nodeid (-1)).ret.toNat)
        (parse_schema_nodeid nodeid (-1)).ret.toNat
        (parse_schema_nodeid nodeid (-1)).is_relative shorthand
        (parse_schema_nodeid nodeid (-1)).mod_name
        ((parse_schema_nodeid nodeid (-1)).name.take (parse_schema_nodeid nodeid (-1)).nam_len)
        sibs parentNT).1 = -2 ∧ noInnerlist = true) ∨
    (0 < (nodeidLoop env module withInOut acceptMask noInnerlist fuel
        (nodeid.drop (parse_schema_nodeid nodeid (-1)).ret.toNat)
        (parse_schema_nodeid nodeid (-1)).ret.toNat
        (parse_schema_nodeid nodeid (-1)).is_relative shorthand
        (parse_schema_nodeid nodeid (-1)).mod_name
        ((parse_schema_nodeid nodeid (-1)).name.take (parse_schema_nodeid nodeid (-1)).nam_len)
        sibs parentNT).1 ∧
      nodeidScanFail nodeid (-1) 0
        = some (nodeidLoop env module withInOut acceptMask noInnerlist fuel
            (nodeid.drop (parse_schema_nodeid nodeid (-1)).ret.toNat)
            (parse_schema_nodeid nodeid (-1)).ret.toNat
            (parse_schema_nodeid nodeid (-1)).is_relative shorthand
            (parse_schema_nodeid nodeid (-1)).mod_name
            ((parse_schema_nodeid nodeid (-1)).name.take
              (parse_schema_nodeid nodeid (-1)).nam_len)
            sibs parentNT).1) := by
  rcases nodeidLoop_discipline env module withInOut acceptMask noInnerlist fuel
      (nodeid.drop (parse_schema_nodeid nodeid (-1)).ret.toNat)
      (parse_schema_nodeid nodeid (-1)).ret.toNat
      (parse_schema_nodeid nodeid (-1)).is_relative shorthand
      (parse_schema_nodeid nodeid (-1)).mod_name
      ((parse_schema_nodeid nodeid (-1)).name.take (parse_schema_nodeid nodeid (-1)).nam_len)
      sibs parentNT
    with h0 | h1 | h2 | ⟨hpos, hsf⟩
  · exact Or.inl h0
  · exact Or.inr (Or.inl h1)
  · exact Or.inr (Or.inr (Or.inl h2))
  · by_cases hemp : (nodeid.drop (parse_schema_nodeid nodeid (-1)).ret.toNat).isEmpty = true
    · have hE : nodeid.drop (parse_schema_nodeid nodeid (-1)).ret.toNat = [] :=
        List.isEmpty_iff.mp hemp
      rw [hE] at hpos
      have hnp := nodeidLoop_nil_nonpos env module withInOut acceptMask noInnerlist fuel
        (parse_schema_nodeid nodeid (-1)).ret.toNat
        (parse_schema_nodeid nodeid (-1)).is_relative shorthand
        (parse_schema_nodeid nodeid (-1)).mod_name
        ((parse_schema_nodeid nodeid (-1)).name.take (parse_schema_nodeid nodeid (-1)).nam_len)
        sibs parentNT
      omega
    · right; right; right
      refine ⟨hpos, ?_⟩
      rw [nodeidScanFail]
      rw [dif_neg hret, if_neg hemp, Nat.zero_add]
      exact hsf

/-- C8: return discipline of the augment and descendant schema-nodeid
resolvers.  Both return 0 on success (with or without a result node),
-1 on semantic failure, or — exactly when the input fails the nodeid
grammar — the positive 1-based offset of the first offending character,
as computed by the pure re-scan `nodeidScanFail`; in addition the
descendant resolver returns -2 instead of -1 when it would descend into
a list and its `no_innerlist` restriction is set, which is therefore
the one return value outside the claimed k+1 / -1 / success
discipline. -/
theorem C8_nodeid_return_discipline (env : List (Str × Nat))
    (moduleData : List (Nat × List lys_node)) (nodeid : Str)
    (start : Option (List lys_node × Option Nat × Nat)) (module : Option Nat)
    (startD : List lys_node × Option Nat × Nat) (ret_nodetype : Nat)
    (check_shorthand no_innerlist : Bool) :
    ((resolve_augment_schema_nodeid env moduleData nodeid start module).1 = 0 ∨
     (resolve_augment_schema_nodeid env moduleData nodeid start module).1 = -1 ∨
     (0 < (resolve_augment_schema_nodeid env moduleData nodeid start module).1 ∧
       nodeidScanFail nodeid (-1) 0
         = some (resolve_augment_schema_nodeid env moduleData nodeid start module).1)) ∧
    ((resolve_descendant_schema_nodeid env nodeid startD ret_nodetype check_shorthand
        no_innerlist).1 = 0 ∨
     (resolve_descendant_schema_nodeid env nodeid startD ret_nodetype check_shorthand
        no_innerlist).1 = -1 ∨
     ((resolve_descendant_schema_nodeid env nodeid startD ret_nodetype check_shorthand
        no_innerlist).1 = -2 ∧ no_innerlist = true) ∨
     (0 < (resolve_descendant_schema_nodeid env nodeid startD ret_nodetype check_shorthand
        no_innerlist).1 ∧
       nodeidScanFail nodeid (-1) 0
         = some (resolve_descendant_schema_nodeid env nodeid startD ret_nodetype
             check_shorthand no_innerlist).1)) := by
  constructor
  · by_cases hret : (parse_schema_nodeid nodeid (-1)).ret < 1
    · have hred : resolve_augment_schema_nodeid env moduleData nodeid start module
          = ((0 : Int) - (parse_schema_nodeid nodeid (-1)).ret + 1, none) := by
        simp only [resolve_augment_schema_nodeid, if_pos hret]
      rw [hred]
      right; right
      refine ⟨by omega, ?_⟩
      rw [nodeidScanFail]
      rw [dif_pos hret]
      rfl
    · by_cases hsem : ((parse_schema_nodeid nodeid (-1)).is_relative = 1 ∧ start.isNone) ∨
          ((parse_schema_nodeid nodeid (-1)).is_relative ≠ 1 ∧ module.isNone)
      · have hred : resolve_augment_schema_nodeid env moduleData nodeid start module
            = (-1, none) := by
          simp only [resolve_augment_schema_nodeid, if_neg hret, if_pos hsem]
        rw [hred]
        right; left; rfl
      · by_cases hrel : (parse_schema_nodeid nodeid (-1)).is_relative = 1
        · cases start with
          | none =>
            have hred : resolve_augment_schema_nodeid env moduleData nodeid none module
                = (-1, none) := by
              simp only [resolve_augment_schema_nodeid, if_neg hret, if_neg hsem, if_pos hrel]
            rw [hred]
            right; left; rfl
          | some st =>
            rcases st with ⟨sibs, parentNT, startMod⟩
            have hred : resolve_augment_schema_nodeid env moduleData nodeid
                  (some (sibs, parentNT, startMod)) module
                = nodeidLoop env startMod true none false (nodeid.length + 1)
                    (nodeid.drop (parse_schema_nodeid nodeid (-1)).ret.toNat)
                    (parse_schema_nodeid nodeid (-1)).ret.toNat
                    (parse_schema_nodeid nodeid (-1)).is_relative 0
                    (parse_schema_nodeid nodeid (-1)).mod_name
                    ((parse_schema_nodeid nodeid (-1)).name.take
                      (parse_schema_nodeid nodeid (-1)).nam_len) sibs parentNT := by
              simp only [resolve_augment_schema_nodeid, if_neg hret, if_neg hsem, if_pos hrel]
            rw [hred]
            rcases nodeidEntry_discipline env startMod true none false nodeid
                (nodeid.length + 1) 0 sibs parentNT hret with h0 | h1 | ⟨_, hff⟩ | hnat
            · exact Or.inl h0
            · exact Or.inr (Or.inl h1)
            · cases hff
            · exact Or.inr (Or.inr hnat)
        · cases module with
          | none =>
            have hred : resolve_augment_schema_nodeid env moduleData nodeid start none
                = (-1, none) := by
              simp only [resolve_augment_schema_nodeid, if_neg hret, if_neg hsem, if_neg hrel]
            rw [hred]
            right; left; rfl
          | some m =>
            rcases himp : lys_get_import_module env m
                (parse_schema_nodeid nodeid (-1)).mod_name with _ | startMod
            · have hred : resolve_augment_schema_nodeid env moduleData nodeid start (some m)
                  = (-1, none) := by
                simp only [resolve_augment_schema_nodeid, if_neg hret, if_neg hsem,
                  if_neg hrel, himp]
              rw [hred]
              right; left; rfl
            · have hred : resolve_augment_schema_nodeid env moduleData nodeid start (some m)
                  = nodeidLoop env m true none false (nodeid.length + 1)
                      (nodeid.drop (parse_schema_nodeid nodeid (-1)).ret.toNat)
                      (parse_schema_nodeid nodeid (-1)).ret.toNat
                      (parse_schema_nodeid nodeid (-1)).is_relative 0
                      (parse_schema_nodeid nodeid (-1)).mod_name
                      ((parse_schema_nodeid nodeid (-1)).name.take
                        (parse_schema_nodeid nodeid (-1)).nam_len)
                      (match moduleData.find? (fun q => q.1 = startMod) with
                        | some q => q.2
                        | none => []) none := by
                simp only [resolve_augment_schema_nodeid, if_neg hret, if_neg hsem,
                  if_neg hrel, himp]
              rw [hred]
              rcases nodeidEntry_discipline env m true none false nodeid
                  (nodeid.length + 1) 0
                  (match moduleData.find? (fun q => q.1 = startMod) with
                    | some q => q.2
                    | none => []) none hret with h0 | h1 | ⟨_, hff⟩ | hnat
              · exact Or.inl h0
              · exact Or.inr (Or.inl h1)
              · cases hff
              · exact Or.inr (Or.inr hnat)
  · rcases startD with ⟨sibs, parentNT, startMod⟩
    by_cases hret : (parse_schema_nodeid nodeid (-1)).ret < 1
    · have hred : resolve_descendant_schema_nodeid env nodeid (sibs, parentNT, startMod)
            ret_nodetype check_shorthand no_innerlist
          = ((0 : Int) - (parse_schema_nodeid nodeid (-1)).ret + 1, none) := by
        simp only [resolve_descendant_schema_nodeid, if_pos hret]
      rw [hred]
      right; right; right
      refine ⟨by omega, ?_⟩
      rw [nodeidScanFail]
      rw [dif_pos hret]
      rfl
    · by_cases hrel : (parse_schema_nodeid nodeid (-1)).is_relative ≠ 1
      · have hred : resolve_descendant_schema_nodeid env nodeid (sibs, parentNT, startMod)
              ret_nodetype check_shorthand no_innerlist = (-1, none) := by
          simp only [resolve_descendant_schema_nodeid, if_neg hret, if_pos hrel]
        rw [hred]
        right; left; rfl
      · have hred : resolve_descendant_schema_nodeid env nodeid (sibs, parentNT, startMod)
              ret_nodetype check_shorthand no_innerlist
            = nodeidLoop env startMod false (some ret_nodetype) no_innerlist
                (nodeid.length + 1)
                (nodeid.drop (parse_schema_nodeid nodeid (-1)).ret.toNat)
                (parse_schema_nodeid nodeid (-1)).ret.toNat
                (parse_schema_nodeid nodeid (-1)).is_relative
                (if check_shorthand then 0 else -1)
                (parse_schema_nodeid nodeid (-1)).mod_name
                ((parse_schema_nodeid nodeid (-1)).name.take
                  (parse_schema_nodeid nodeid (-1)).nam_len) sibs parentNT := by
          simp only [resolve_descendant_schema_nodeid, if_neg hret, if_neg hrel]
        rw [hred]
        exact nodeidEntry_discipline env startMod false (some ret_nodetype) no_innerlist
          nodeid (nodeid.length + 1) (if check_shorthand then 0 else -1) sibs parentNT hret

end Libyang
